import Mathlib

/-!
# torre-xplor: the service layer `src/services/api.js`

A shallow embedding of `analyzeTrendingSkills`, `searchEntities` and `getUserGenome`
of the service layer and of the reasons block and the request of
`components/RecommendationsView.jsx`, followed by the properties established for them.
The comparison core that the views call is modelled from the specification.

Conventions of the embedding
* A JavaScript `Map` is an association list in insertion order: `Map.prototype.set`
  on a key already present overwrites the value in place, on a new key it appends.
* `Array.prototype.sort` is stable (ECMAScript 2019), and a stable sort by a
  consistent comparator has one possible result; it is embedded as insertion sort.
* Counts are natural numbers (the source only ever adds 1 to them).
* A string is a sequence of Unicode characters.
* The effects of `searchEntities` are explicit: the call of `axios.post` is a function
  parameter, and the outcome lists the request bodies that were passed to it.
-/

namespace TorreXplor

/-! ## Data model of `analyzeTrendingSkills` -/

/-- A skill or strength entry as the source reads it: a bare string, or an object of
which only the `name` property is read (`none` when the property is absent). An object
carries its reference `ref`, since a `Map` compares object keys by identity. -/
inductive SkillEntry where
  | str (s : String)
  | obj (ref : Nat) (name : Option String)
  deriving DecidableEq, Repr

/-- An element of `searchResults`: only `skills` and `strengths` are read. `none` is
a property that is absent (or otherwise falsy), which the source skips. -/
structure Profile where
  skills : Option (List SkillEntry)
  strengths : Option (List SkillEntry)
  deriving DecidableEq, Repr

/-- A JavaScript `Map` from keys to counts, entries kept in insertion order. -/
abbrev JsMap := List (SkillEntry × Nat)

/-- `Map.prototype.get`: `none` stands for `undefined`. -/
def JsMap.get : JsMap → SkillEntry → Option Nat
  | [], _ => none
  | (k', v) :: rest, k => if k' = k then some v else JsMap.get rest k

/-- `Map.prototype.set`: overwrite in place when the key is present, append otherwise. -/
def JsMap.set : JsMap → SkillEntry → Nat → JsMap
  | [], k, v => [(k, v)]
  | (k', v') :: rest, k, v =>
    if k' = k then (k, v) :: rest else (k', v') :: JsMap.set rest k v

/-- The expression `skill.name || skill` (lines 229 and 237): the `name` property when
it is a non-empty string, the entry itself otherwise. A string has no `name` property. -/
def skillName : SkillEntry → SkillEntry
  | .str s => .str s
  | .obj ref none => .obj ref none
  | .obj ref (some n) => if n = "" then .obj ref (some n) else .str n

/-- The body of the inner `forEach` (lines 228-231 and 236-239):
`map.set(name, (map.get(name) || 0) + 1)`. -/
def bump (m : JsMap) (skill : SkillEntry) : JsMap :=
  JsMap.set m (skillName skill) ((JsMap.get m (skillName skill)).getD 0 + 1)

/-- The body of the outer `forEach` (lines 225-241) on the pair
`(skillsMap, strengthsMap)`. -/
def visit (acc : JsMap × JsMap) (person : Profile) : JsMap × JsMap :=
  (match person.skills with
    | some skills => skills.foldl bump acc.1
    | none => acc.1,
   match person.strengths with
    | some strengths => strengths.foldl bump acc.2
    | none => acc.2)

/-- Both maps after `searchResults.forEach`, started from two fresh maps (lines 222-241). -/
def tally (searchResults : List Profile) : JsMap × JsMap :=
  searchResults.foldl visit ([], [])

/-- The map `skillsMap` after the loop. -/
def skillsMap (searchResults : List Profile) : JsMap := (tally searchResults).1

/-- The map `strengthsMap` after the loop. -/
def strengthsMap (searchResults : List Profile) : JsMap := (tally searchResults).2

/-- An element `{ name, count }` of `topSkills` or `topStrengths`. -/
structure TrendEntry where
  name : SkillEntry
  count : Nat
  deriving DecidableEq, Repr

/-- The comparator `(a, b) => b[1] - a[1]` puts `a` no later than `b` when
`b[1] - a[1] ≤ 0`. -/
def byCountDesc (a b : SkillEntry × Nat) : Prop := b.2 ≤ a.2

instance : DecidableRel byCountDesc := fun a b => inferInstanceAs (Decidable (b.2 ≤ a.2))

instance : IsTotal (SkillEntry × Nat) byCountDesc := ⟨fun a b => Nat.le_total b.2 a.2⟩

instance : IsTrans (SkillEntry × Nat) byCountDesc :=
  ⟨fun _ _ _ hab hbc => Nat.le_trans hbc hab⟩

/-- The chain `Array.from(map.entries()).sort(..).slice(0, 10).map(..)`
(lines 244-247 and 249-252). -/
def topTen (m : JsMap) : List TrendEntry :=
  ((m.insertionSort byCountDesc).take 10).map (fun e => { name := e.1, count := e.2 })

/-- The expression `top[0]?.name || 'N/A'` (lines 259-260): the empty string is falsy,
an object is truthy. -/
def mostPopular : List TrendEntry → SkillEntry
  | [] => .str "N/A"
  | e :: _ => if e.name = .str "" then .str "N/A" else e.name

/-- The `analysis` object of the report (lines 258-263). -/
structure Analysis where
  mostPopularSkill : SkillEntry
  mostPopularStrength : SkillEntry
  skillDiversity : Nat
  strengthDiversity : Nat
  deriving DecidableEq, Repr

/-- The object returned by `analyzeTrendingSkills`. `analysis = none` is the empty
object `{}` and `error` the message, both of the `catch` branch (lines 267-273). -/
structure TrendReport where
  topSkills : List TrendEntry
  topStrengths : List TrendEntry
  totalPeople : Nat
  analysis : Option Analysis
  error : Option String
  deriving DecidableEq, Repr

/-- The function `analyzeTrendingSkills` (lines 220-264) on a list of profiles. On
such an input no statement of the `try` block throws, so the `catch` branch is not
taken. -/
def analyzeTrendingSkills (searchResults : List Profile) : TrendReport :=
  let skillsMap := (tally searchResults).1
  let strengthsMap := (tally searchResults).2
  let topSkills := topTen skillsMap
  let topStrengths := topTen strengthsMap
  { topSkills := topSkills
    topStrengths := topStrengths
    totalPeople := searchResults.length
    analysis := some
      { mostPopularSkill := mostPopular topSkills
        mostPopularStrength := mostPopular topStrengths
        skillDiversity := skillsMap.length
        strengthDiversity := strengthsMap.length }
    error := none }

/-- The `skillDiversity` field of a report (0 when `analysis` is `{}`). -/
def TrendReport.skillDiversity (r : TrendReport) : Nat :=
  match r.analysis with
  | some a => a.skillDiversity
  | none => 0

/-- The `strengthDiversity` field of a report (0 when `analysis` is `{}`). -/
def TrendReport.strengthDiversity (r : TrendReport) : Nat :=
  match r.analysis with
  | some a => a.strengthDiversity
  | none => 0

/-- The count the analysis holds for skill key `k`: `skillsMap.get(k) || 0`. -/
def skillCount (searchResults : List Profile) (k : SkillEntry) : Nat :=
  (JsMap.get (skillsMap searchResults) k).getD 0

/-- The count the analysis holds for strength key `k`: `strengthsMap.get(k) || 0`. -/
def strengthCount (searchResults : List Profile) (k : SkillEntry) : Nat :=
  (JsMap.get (strengthsMap searchResults) k).getD 0

/-- One count added for key `k`: `map.set(k, (map.get(k) || 0) + 1)`. -/
def bumpKey (m : JsMap) (k : SkillEntry) : JsMap :=
  JsMap.set m k ((JsMap.get m k).getD 0 + 1)

/-- The map after one count was added for each key of `ks`, from left to right. -/
def countKeys (m : JsMap) (ks : List SkillEntry) : JsMap := ks.foldl bumpKey m

/-- The keys of a map, in insertion order (`map.keys()`). -/
def JsMap.keys (m : JsMap) : List SkillEntry := m.map Prod.fst

/-! ## Reference notions the properties are stated against -/

/-- The keys of one profile's skills, in the order the loop meets them. -/
def skillKeys (p : Profile) : List SkillEntry := (p.skills.getD []).map skillName

/-- The keys of one profile's strengths, in the order the loop meets them. -/
def strengthKeys (p : Profile) : List SkillEntry := (p.strengths.getD []).map skillName

/-- The skill keys of all profiles, in the order the loop meets them. -/
def allSkillKeys (xs : List Profile) : List SkillEntry := xs.flatMap skillKeys

/-- The strength keys of all profiles, in the order the loop meets them. -/
def allStrengthKeys (xs : List Profile) : List SkillEntry := xs.flatMap strengthKeys

/-- The number of profiles whose key list contains `k`. -/
def profilesWith (keys : Profile → List SkillEntry) (xs : List Profile)
    (k : SkillEntry) : Nat :=
  (xs.filter (fun p => decide (k ∈ keys p))).length

/-! ## Sample inputs -/

/-- One profile that lists the skill "Go" twice. -/
def goTwice : List Profile := [⟨some [.str "Go", .str "Go"], none⟩]

/-- Three profiles, each with the one skill `{ name: "Go" }` and no strengths. -/
def goProfiles : List Profile :=
  [⟨some [.obj 1 (some "Go")], some []⟩, ⟨some [.obj 2 (some "Go")], some []⟩,
   ⟨some [.obj 3 (some "Go")], some []⟩]

/-- Two profiles: skills "a" and "b", then skills "b" and "c". -/
def abThenBc : List Profile :=
  [⟨some [.str "a", .str "b"], some [.str "x"]⟩, ⟨some [.str "b", .str "c"], none⟩]

/-! ## Data model of `searchEntities` -/

/-- A JavaScript value as far as the source tells values apart: numbers are integers,
and every object, array or function is an `object` known by its reference. -/
inductive JsValue where
  | undefined
  | null
  | bool (b : Bool)
  | num (n : Int)
  | str (s : String)
  | object (ref : Nat)
  deriving DecidableEq, Repr

/-- JavaScript truthiness (`ToBoolean`). -/
def JsValue.truthy : JsValue → Bool
  | .undefined => false
  | .null => false
  | .bool b => b
  | .num n => decide (n ≠ 0)
  | .str s => decide (s ≠ "")
  | .object _ => true

/-- The operator `a || b` on values. -/
def JsValue.or (a b : JsValue) : JsValue := if a.truthy then a else b

/-- The code points that `String.prototype.trim` removes: ECMAScript `WhiteSpace`
(tab, vertical tab, form feed, space, no-break space, the byte order mark and the
Unicode space separators) and `LineTerminator` (LF, CR, U+2028, U+2029). -/
def isJsWhiteSpace (c : Char) : Bool :=
  decide (c.toNat ∈ [0x09, 0x0A, 0x0B, 0x0C, 0x0D, 0x20, 0xA0, 0x1680, 0x2000, 0x2001,
    0x2002, 0x2003, 0x2004, 0x2005, 0x2006, 0x2007, 0x2008, 0x2009, 0x200A, 0x2028,
    0x2029, 0x202F, 0x205F, 0x3000, 0xFEFF])

/-- `String.prototype.trim` on the characters of a string. -/
def jsTrimChars (cs : List Char) : List Char :=
  ((cs.dropWhile isJsWhiteSpace).reverse.dropWhile isJsWhiteSpace).reverse

/-- `String.prototype.trim`. -/
def jsTrim (s : String) : String := ⟨jsTrimChars s.data⟩

/-- The argument `searchParams` after destructuring (line 19): `query` may be any
value; `limit` and `offset` are absent (`none`) or integers; `filters` is never read. -/
structure SearchParams where
  query : JsValue
  limit : Option Int
  offset : Option Int
  deriving DecidableEq, Repr

/-- The object `requestBody` (lines 26-36); `none` is a property that was not added. -/
structure RequestBody where
  query : String
  limit : Option Int
  offset : Option Int
  deriving DecidableEq, Repr

/-- What the `catch` block can see of a thrown error: an error with `error.response`
(its status and `data?.message`), one with `error.request` only, or one with neither,
of which `error.message` is read. -/
inductive Thrown where
  | withResponse (status : Int) (message : Option String)
  | withRequest
  | plain (message : String)
  deriving DecidableEq, Repr

/-- The properties that the source reads of an object among the raw results. -/
structure RawObject where
  username : JsValue
  organizationId : JsValue
  ardaId : JsValue
  ggId : JsValue
  id : JsValue
  name : JsValue
  imageUrl : JsValue
  professionalHeadline : JsValue
  verified : JsValue
  weight : JsValue
  completion : JsValue
  location : JsValue
  deriving DecidableEq, Repr

/-- A raw result: a falsy value (`null`, `0`, `false`, `""`), a truthy value with none
of the properties read (a number, a string, `true`, an array), or an object. -/
inductive RawItem where
  | falsy
  | other
  | object (o : RawObject)
  deriving DecidableEq, Repr

/-- The body `response.data` of a successful response: a string, an array, another
object, or any other value (`undefined`, `null`, a number, a boolean). -/
inductive ResponseData where
  | text (s : String)
  | array (items : List RawItem)
  | object (o : RawObject)
  | other
  deriving Repr

/-- The inner object `person` of an element of `peopleResults` (lines 78-90). -/
structure PersonInfo where
  id : JsValue
  publicId : JsValue
  name : JsValue
  username : JsValue
  picture : JsValue
  professionalHeadline : JsValue
  verified : JsValue
  weight : JsValue
  completion : JsValue
  location : JsValue
  deriving DecidableEq, Repr

/-- An element of `peopleResults` (lines 77-95). -/
structure PersonResult where
  person : PersonInfo
  skills : List SkillEntry
  strengths : List SkillEntry
  deriving DecidableEq, Repr

/-- The object that `searchEntities` resolves with (lines 99-106). -/
structure SearchResult where
  success : Bool
  data : List PersonResult
  total : Nat
  query : String
  limit : Int
  offset : Int
  deriving DecidableEq, Repr

/-- One run of `searchEntities`: the promise resolves (`Except.ok`) or rejects with an
`Error` of the given message, and `sent` lists the bodies passed to `axios.post`. -/
structure SearchOutcome where
  result : Except String SearchResult
  sent : List RequestBody

/-- The condition of line 21:
`!query || typeof query !== 'string' || query.trim().length === 0`. -/
def queryRejected (query : JsValue) : Bool :=
  !query.truthy ||
  (match query with
    | .str s => decide ((jsTrim s).length = 0)
    | _ => true)

/-- The string value of `query` once line 21 has let it pass. -/
def queryText : JsValue → String
  | .str s => s
  | _ => ""

/-- The `catch` block of `searchEntities` (lines 107-117): the message of the error
that is thrown again. -/
def searchCatch : Thrown → String
  | .withResponse status message =>
    "API Error " ++ toString status ++ ": " ++
      (match message with
        | some m => if m = "" then "Unknown error" else m
        | none => "Unknown error")
  | .withRequest =>
    "Network error: Unable to reach Torre API. Please check your internet connection."
  | .plain message => "Request error: " ++ message

/-- `String.prototype.split('\n')` on the characters of a string. -/
def splitNewline : List Char → List (List Char)
  | [] => [[]]
  | c :: cs =>
    if c = '\n' then [] :: splitNewline cs
    else match splitNewline cs with
      | [] => [[c]]
      | l :: ls => (c :: l) :: ls

/-- The lines kept by line 56:
`response.data.trim().split('\n').filter(line => line.trim())`. -/
def keptLines (s : String) : List String :=
  ((splitNewline (jsTrimChars s.data)).map String.mk).filter
    (fun line => decide (jsTrim line ≠ ""))

/-- The array `results` (lines 53-69); `parse` is `JSON.parse`, `none` when it throws,
in which case the line yields `null`, which `filter(Boolean)` drops like every other
falsy value. -/
def parseResults (parse : String → Option RawItem) : ResponseData → List RawItem
  | .text s =>
    ((keptLines s).map (fun line => (parse line).getD .falsy)).filter
      (fun item => decide (item ≠ .falsy))
  | .array items => items
  | .object o => [.object o]
  | .other => []

/-- The predicate of the filter of lines 75-76:
`item && item.username && item.username !== null && !item.organizationId`. -/
def isPerson : RawItem → Bool
  | .falsy => false
  | .other => false
  | .object o => o.username.truthy && decide (o.username ≠ .null) && !o.organizationId.truthy

/-- The mapping of lines 77-95 on an object that passed the filter. -/
def toPersonResult (person : RawObject) : PersonResult :=
  { person :=
      { id := (person.ardaId.or person.ggId).or person.id
        publicId := person.username
        name := person.name
        username := person.username
        picture := person.imageUrl
        professionalHeadline := person.professionalHeadline
        verified := person.verified.or (.bool false)
        weight := person.weight
        completion := person.completion
        location := person.location.or .null }
    skills := []
    strengths := [] }

/-- The array `peopleResults` (lines 75-95). -/
def peopleResults (results : List RawItem) : List PersonResult :=
  (results.filter isPerson).filterMap
    (fun item => match item with
      | .object o => some (toPersonResult o)
      | _ => none)

/-- The function `searchEntities` (lines 17-118). `post` stands for the call
`axios.post(url, requestBody, ..)`: the body of the response, or the error it throws;
`parse` stands for `JSON.parse`. -/
def searchEntities (post : RequestBody → Except Thrown ResponseData)
    (parse : String → Option RawItem) (searchParams : SearchParams) : SearchOutcome :=
  let query := searchParams.query
  let limit := searchParams.limit.getD 20
  let offset := searchParams.offset.getD 0
  if queryRejected query then
    { result := .error (searchCatch (.plain "Search query is required")), sent := [] }
  else
    let requestBody : RequestBody :=
      { query := jsTrim (queryText query)
        limit := if limit ≠ 0 ∧ limit > 0 then some (min limit 50) else none
        offset := if offset ≠ 0 ∧ offset > 0 then some (max offset 0) else none }
    match post requestBody with
    | .error e => { result := .error (searchCatch e), sent := [requestBody] }
    | .ok data =>
      let people := peopleResults (parseResults parse data)
      { result := .ok
          { success := true
            data := people
            total := people.length
            query := jsTrim (queryText query)
            limit := limit
            offset := offset }
        sent := [requestBody] }

/-- One profile with eleven skills, named "k" down to "a" in that order. -/
def elevenSkills : List Profile :=
  [⟨some [.str "k", .str "j", .str "i", .str "h", .str "g", .str "f", .str "e", .str "d",
      .str "c", .str "b", .str "a"], none⟩]

/-- One profile with the skills "Go", "go " and "GO". -/
def caseVariants : List Profile := [⟨some [.str "Go", .str "go ", .str "GO"], none⟩]

/-- The matching key of the specification (section 3), stated from its words for
comparison with `skillName`: the name trimmed and case-folded. The source computes no
such key. -/
def specNormalizedKey : SkillEntry → SkillEntry
  | .str s => .str ⟨(jsTrimChars s.data).map Char.toLower⟩
  | .obj ref name => .obj ref name

/-! ## Data model of `getUserGenome` -/

/-- The object that `getUserGenome` resolves with (lines 143-147); `data` is the body
of the response, of whatever shape. -/
structure GenomeResult (β : Type) where
  success : Bool
  data : β
  username : String

/-- One run of `getUserGenome`: the promise resolves or rejects with an `Error` of the
given message, and `requested` lists the usernames whose genome URL was passed to
`axios.get`. -/
structure GenomeOutcome (β : Type) where
  result : Except String (GenomeResult β)
  requested : List String

/-- The condition of line 127: `!username || typeof username !== 'string'`. -/
def usernameRejected (username : JsValue) : Bool :=
  !username.truthy ||
  (match username with
    | .str _ => false
    | _ => true)

/-- The `catch` block of `getUserGenome` (lines 148-164): the message of the error
that is thrown again. -/
def genomeCatch : Thrown → String
  | .withResponse status message =>
    "API Error " ++ toString status ++ ": " ++
      (match message with
        | some m => if m = "" then "User not found" else m
        | none => "User not found")
  | .withRequest =>
    "Network error: Unable to reach Torre API. Please check your internet connection."
  | .plain message => "Request error: " ++ message

/-- The function `getUserGenome` (lines 125-165). `get` stands for the call
`axios.get` on the genome URL of a username: the body of the response, or the error it
throws. -/
def getUserGenome {β : Type} (get : String → Except Thrown β) (username : JsValue) :
    GenomeOutcome β :=
  if usernameRejected username then
    { result := .error (genomeCatch (.plain "Username is required and must be a string"))
      requested := [] }
  else
    match get (queryText username) with
    | .error e => { result := .error (genomeCatch e), requested := [queryText username] }
    | .ok data =>
      { result := .ok { success := true, data := data, username := queryText username }
        requested := [queryText username] }

/-! ## The reasons of `RecommendationCard` -/

/-- One row of the reasons block of `RecommendationCard` (lines 323-326): its React
`key` and the text of its `span`. -/
structure ReasonRow where
  key : Nat
  text : String
  deriving DecidableEq, Repr

/-- The rows rendered by `reasons.slice(0, 2).map((reason, idx) => ..)`
(lines 322-327). -/
def reasonRows (reasons : List String) : List ReasonRow :=
  (reasons.take 2).enum.map (fun p => { key := p.1, text := p.2 })

/-! ## Search results as input of the trend analysis -/

/-- An element of `peopleResults` as `analyzeTrendingSkills` reads it: its `skills`
and `strengths` arrays, which are truthy even when empty. -/
def PersonResult.toProfile (p : PersonResult) : Profile :=
  { skills := some p.skills, strengths := some p.strengths }

/-- The raw results that are people, in their order: the objects with a truthy
`username` and a falsy `organizationId`. -/
def peopleOf (results : List RawItem) : List RawObject :=
  results.filterMap (fun item =>
    match item with
    | .object o =>
      if o.username.truthy = true ∧ o.organizationId.truthy = false then some o else none
    | _ => none)

/-- The response body used in the sample runs: one organization between two people. -/
def sampleResponse : ResponseData :=
  .array
    [.object ⟨.str "ana", .undefined, .num 7, .undefined, .undefined, .str "Ana",
        .undefined, .undefined, .undefined, .undefined, .undefined, .undefined⟩,
     .object ⟨.str "acme", .num 3, .undefined, .undefined, .undefined, .str "Acme",
        .undefined, .undefined, .undefined, .undefined, .undefined, .undefined⟩,
     .falsy,
     .object ⟨.str "bo", .null, .undefined, .str "g2", .undefined, .str "Bo",
        .undefined, .undefined, .bool true, .undefined, .undefined, .undefined⟩]

/-! ## The comparison core, modelled from the specification

The views import the comparison and recommendation functions from
`contexts/ComparisonContext.jsx`, which is not among the source files. The definitions
of this section follow sections 3 and 4 of the specification instead. Weights and
scores are rational numbers, so sums do not depend on the order of summation. A quotient
with divisor 0 is not a number; a score has type `Option ℚ`, `none` being a score that
is not a number. -/

/-- Modelled from the spec: `SkillEntry` of section 3, the input of the missing
Normalizer: a display name and a weight, `none` for an entry without weight. -/
structure SpecEntry where
  name : String
  weight : Option ℚ
  deriving DecidableEq, Repr

/-- Modelled from the spec: "collapses internal whitespace" of section 4.1 of the
missing Normalizer: every run of whitespace becomes one space. -/
def collapseSpaces : List Char → List Char
  | [] => []
  | c :: cs =>
    if isJsWhiteSpace c then
      match cs with
      | [] => [' ']
      | d :: _ => if isJsWhiteSpace d then collapseSpaces cs else ' ' :: collapseSpaces cs
    else c :: collapseSpaces cs

/-- Modelled from the spec: the matching key of section 4.1 of the missing Normalizer:
the name trimmed, its internal whitespace collapsed, case-folded. -/
def matchKey (name : String) : List Char :=
  (collapseSpaces (jsTrimChars name.data)).map Char.toLower

/-- Modelled from the spec: "clamps `weight` into `[0,1]`" of section 4.1 of the
missing Normalizer. -/
def clampWeight (w : ℚ) : ℚ := max 0 (min 1 w)

/-- Modelled from the spec: the weight the missing Normalizer gives an entry: clamped,
with 0.5 for an entry without weight (section 4.1). -/
def entryWeight (e : SpecEntry) : ℚ := clampWeight (e.weight.getD (1 / 2))

/-- Modelled from the spec: one step of "deduplicates by key" of the missing
Normalizer (section 4.1): an entry whose key is present keeps the first-seen display
name and the maximum weight, a new key is added behind the others. -/
def mergeEntry : List (String × ℚ) → String → ℚ → List (String × ℚ)
  | [], n, w => [(n, w)]
  | (n', w') :: rest, n, w =>
    if matchKey n' = matchKey n then (n', max w' w) :: rest
    else (n', w') :: mergeEntry rest n w

/-- Modelled from the spec: the entries of the missing Normalizer after dropping the
empty keys, clamping and deduplicating (section 4.1), in first-seen order. -/
def mergeAll (acc : List (String × ℚ)) (entries : List SpecEntry) : List (String × ℚ) :=
  entries.foldl
    (fun acc e => if matchKey e.name = [] then acc else mergeEntry acc e.name (entryWeight e))
    acc

/-- Modelled from the spec: the output order of the missing Normalizer (section 4.1):
weight descending, key ascending on ties. -/
def normBefore (a b : String × ℚ) : Prop :=
  b.2 < a.2 ∨ (a.2 = b.2 ∧ matchKey a.1 ≤ matchKey b.1)

instance : DecidableRel normBefore := fun a b =>
  inferInstanceAs (Decidable (b.2 < a.2 ∨ (a.2 = b.2 ∧ matchKey a.1 ≤ matchKey b.1)))

/-- Modelled from the spec: `normalize` of section 4.1, the contract of the missing
Normalizer. -/
def normalize (entries : List SpecEntry) : List SpecEntry :=
  ((mergeAll [] entries).insertionSort normBefore).map
    (fun p => { name := p.1, weight := some p.2 })

/-- Modelled from the spec: a set of weights indexed by normalized key, the input of
the missing SimilarityScorer (section 4.2). -/
abbrev WeightedSet := List (List Char × ℚ)

/-- Modelled from the spec: the weight of key `k` in a set of the missing
SimilarityScorer (section 4.2), `none` when the key is not in the set. -/
def weightIn : WeightedSet → List Char → Option ℚ
  | [], _ => none
  | (k', w) :: rest, k => if k' = k then some w else weightIn rest k

/-- Modelled from the spec: the key-indexed union of section 4.2 of the missing
SimilarityScorer. -/
def unionKeys (a b : WeightedSet) : List (List Char) :=
  (a.map Prod.fst ++ b.map Prod.fst).dedup

/-- Modelled from the spec: what a key contributes to the numerator of the missing
SimilarityScorer (section 4.2): `min(weightA, weightB)` when it is present in both sets,
nothing otherwise. -/
def sharedWeight (a b : WeightedSet) (k : List Char) : ℚ :=
  match weightIn a k, weightIn b k with
  | some x, some y => min x y
  | _, _ => 0

/-- Modelled from the spec: what a key contributes to the denominator of the missing
SimilarityScorer (section 4.2): `max(weightA, weightB)`, with 0 for a missing side. -/
def unionWeight (a b : WeightedSet) (k : List Char) : ℚ :=
  max ((weightIn a k).getD 0) ((weightIn b k).getD 0)

/-- Modelled from the spec: the numerator of `scoreSets` (section 4.2). -/
def numerator (a b : WeightedSet) : ℚ := ((unionKeys a b).map (sharedWeight a b)).sum

/-- Modelled from the spec: the denominator of `scoreSets` (section 4.2). -/
def denominator (a b : WeightedSet) : ℚ := ((unionKeys a b).map (unionWeight a b)).sum

/-- Modelled from the spec: the quotient `numerator / denominator` of the missing
SimilarityScorer (section 4.2): not a number (`none`) when the divisor is 0. -/
def quotient (n d : ℚ) : Option ℚ := if d = 0 then none else some (n / d)

/-- Modelled from the spec: "identical weighted sets" of section 4.2 of the missing
SimilarityScorer: every key of the union has the same weight on both sides. -/
def identicalSets (a b : WeightedSet) : Prop :=
  ∀ k ∈ unionKeys a b, weightIn a k = weightIn b k

instance (a b : WeightedSet) : Decidable (identicalSets a b) :=
  inferInstanceAs (Decidable (∀ k ∈ unionKeys a b, weightIn a k = weightIn b k))

/-- Modelled from the spec: `scoreSets` of section 4.2, the contract of the missing
SimilarityScorer: "`score = numerator / denominator`, or `0` if the union is empty".
Where the union is not empty and the denominator is 0 (every weight of the union is 0)
the quotient has no value, and the score is the one that the third bullet of section 4.2
gives: 1 for identical weighted sets, and 0 for disjoint sets and for a partial overlap,
whose shared weight mass is 0. -/
def scoreSets (a b : WeightedSet) : Option ℚ :=
  if unionKeys a b = [] then some 0
  else if denominator a b = 0 then (if identicalSets a b then some 1 else some 0)
  else quotient (numerator a b) (denominator a b)

/-- Modelled from the spec: the normalized set of a profile's skills or strengths as
the missing ComparisonEngine passes it to the scorer (section 4.3). -/
def weightedSet (entries : List SpecEntry) : WeightedSet :=
  (normalize entries).map (fun e => (matchKey e.name, entryWeight e))

/-- Modelled from the spec: `Experience` of section 3. -/
structure SpecExperience where
  name : String
  category : String
  fromMonth : Nat
  fromYear : Nat
  toMonth : Option Nat
  toYear : Option Nat
  deriving DecidableEq, Repr

/-- Modelled from the spec: the set `{category: 1.0}` over the distinct experience
categories, of `scoreExperience` of the missing SimilarityScorer (section 4.2). -/
def categorySet (experiences : List SpecExperience) : WeightedSet :=
  ((experiences.map (fun e => e.category.data)).dedup).map (fun c => (c, 1))

/-- Modelled from the spec: the total experience duration in months of the missing
SimilarityScorer (section 4.2). The specification derives the months of one entry from
its dates and the current time without giving the formula: `months` is that
derivation. -/
def totalMonths (months : SpecExperience → ℤ) (experiences : List SpecExperience) : ℤ :=
  (experiences.map months).sum

/-- Modelled from the spec: the duration similarity of the missing SimilarityScorer
(section 4.2): `1 - |durA - durB| / max(durA, durB, 1)`. -/
def durationSimilarity (durA durB : ℤ) : ℚ :=
  1 - |(durA : ℚ) - durB| / max (max (durA : ℚ) durB) 1

/-- Modelled from the spec: `scoreExperience` of section 4.2 of the missing
SimilarityScorer: half the duration similarity plus half the category similarity. -/
def scoreExperience (months : SpecExperience → ℤ)
    (expA expB : List SpecExperience) : Option ℚ :=
  (scoreSets (categorySet expA) (categorySet expB)).map
    (fun c => 1 / 2 * durationSimilarity (totalMonths months expA) (totalMonths months expB)
      + 1 / 2 * c)

/-- Modelled from the spec: `Profile` of section 3, with the professional headline
that section 4.4 of the missing CandidateRecommender reads. -/
structure SpecProfile where
  id : String
  username : String
  name : String
  headline : String
  skills : List SpecEntry
  strengths : List SpecEntry
  experiences : List SpecExperience
  verified : Bool
  openToWork : Bool
  deriving DecidableEq, Repr

/-- Modelled from the spec: the weights of `overallScore` (section 4.2), a named,
overridable policy of the missing SimilarityScorer. -/
structure ScoreWeights where
  skills : ℚ
  strengths : ℚ
  experience : ℚ
  deriving DecidableEq, Repr

/-- Modelled from the spec: the weights 0.4, 0.3 and 0.3 of section 4.2 of the missing
SimilarityScorer. -/
def defaultWeights : ScoreWeights := { skills := 2 / 5, strengths := 3 / 10, experience := 3 / 10 }

/-- Modelled from the spec: `overallScore` of section 4.2 of the missing
SimilarityScorer; it is a number when the three scores are. -/
def overallOf (policy : ScoreWeights) (skills strengths experience : Option ℚ) : Option ℚ :=
  match skills, strengths, experience with
  | some s, some t, some e => some (policy.skills * s + policy.strengths * t + policy.experience * e)
  | _, _, _ => none

/-- Modelled from the spec: `details` of a `ComparisonResult` (section 3). -/
structure SimilarityDetails where
  commonSkills : List SpecEntry
  uniqueSkillsA : List SpecEntry
  uniqueSkillsB : List SpecEntry
  deriving DecidableEq, Repr

/-- Modelled from the spec: `similarity` of a `ComparisonResult` (section 3). -/
structure Similarity where
  overallScore : Option ℚ
  skillsScore : Option ℚ
  strengthsScore : Option ℚ
  experienceScore : Option ℚ
  details : SimilarityDetails
  deriving DecidableEq, Repr

/-- Modelled from the spec: `ComparisonResult` of section 3. -/
structure ComparisonResult where
  personA : SpecProfile
  personB : SpecProfile
  similarity : Similarity
  deriving DecidableEq, Repr

/-- Modelled from the spec: the error taxonomy of section 7. -/
inductive CoreError where
  | validation
  | dataSource
  deriving DecidableEq, Repr

/-- Modelled from the spec: the skill breakdown of the missing ComparisonEngine
(section 4.3): the common entries with the display name of A and the average of the two
weights (exact, so no rounding is needed), and the two set differences with their
weights. -/
def skillDetails (skillsA skillsB : List SpecEntry) : SimilarityDetails :=
  let a := normalize skillsA
  let b := normalize skillsB
  { commonSkills := a.filterMap (fun e =>
      match weightIn (weightedSet skillsB) (matchKey e.name) with
      | some w => some { name := e.name, weight := some ((entryWeight e + w) / 2) }
      | none => none)
    uniqueSkillsA := a.filter (fun e =>
      (weightIn (weightedSet skillsB) (matchKey e.name)).isNone)
    uniqueSkillsB := b.filter (fun e =>
      (weightIn (weightedSet skillsA) (matchKey e.name)).isNone) }

/-- Modelled from the spec: `compare` of section 4.3, the contract of the missing
ComparisonEngine; `none` is a missing profile. -/
def compare (policy : ScoreWeights) (months : SpecExperience → ℤ) :
    Option SpecProfile → Option SpecProfile → Except CoreError ComparisonResult
  | some a, some b =>
    if a.username = b.username then .error .validation
    else
      let skillsScore := scoreSets (weightedSet a.skills) (weightedSet b.skills)
      let strengthsScore := scoreSets (weightedSet a.strengths) (weightedSet b.strengths)
      let experienceScore := scoreExperience months a.experiences b.experiences
      .ok
        { personA := a
          personB := b
          similarity :=
            { overallScore := overallOf policy skillsScore strengthsScore experienceScore
              skillsScore := skillsScore
              strengthsScore := strengthsScore
              experienceScore := experienceScore
              details := skillDetails a.skills b.skills } }
  | _, _ => .error .validation

/-- The state of a list of entries after normalisation: no two entries share a key, no
key is empty, and every weight lies in `[0,1]`. -/
def Normal (l : List (String × ℚ)) : Prop :=
  (l.map (fun p => matchKey p.1)).Nodup ∧
  ∀ p ∈ l, matchKey p.1 ≠ [] ∧ 0 ≤ p.2 ∧ p.2 ≤ 1

/-- Spec example 1: A with skills Go 0.9 and SQL 0.5. -/
def exampleA : SpecProfile :=
  { id := "1", username := "ana", name := "Ana", headline := "Engineer"
    skills := [⟨"Go", some (9 / 10)⟩, ⟨"SQL", some (1 / 2)⟩]
    strengths := [], experiences := [], verified := false, openToWork := false }

/-- Spec example 1: B with skills Go 0.7 and Rust 0.6. -/
def exampleB : SpecProfile :=
  { id := "2", username := "bo", name := "Bo", headline := "Engineer"
    skills := [⟨"Go", some (7 / 10)⟩, ⟨"Rust", some (3 / 5)⟩]
    strengths := [], experiences := [], verified := false, openToWork := false }

/-- A profile whose one skill, "Go", has weight 0. -/
def zeroWeightProfile : SpecProfile :=
  { id := "3", username := "cy", name := "Cy", headline := "Engineer"
    skills := [⟨"Go", some 0⟩]
    strengths := [], experiences := [], verified := false, openToWork := false }

/-- A profile without skills, strengths or experiences. -/
def emptyProfile : SpecProfile :=
  { id := "4", username := "di", name := "Di", headline := "Engineer"
    skills := [], strengths := [], experiences := [], verified := false
    openToWork := false }

/-- The four scores of a comparison, `none` when the comparison fails. -/
def scoresOf (r : Except CoreError ComparisonResult) :
    Option (Option ℚ × Option ℚ × Option ℚ × Option ℚ) :=
  match r with
  | .ok c => some (c.similarity.overallScore, c.similarity.skillsScore,
      c.similarity.strengthsScore, c.similarity.experienceScore)
  | .error _ => none

/-- Modelled from the spec: the options of `recommend` (section 4.4) of the missing
CandidateRecommender. -/
structure RecommendOptions where
  limit : Nat
  minSimilarityScore : ℚ
  excludeUsernames : List String
  deriving DecidableEq, Repr

/-- Modelled from the spec: an element of `recommendations` (section 3). -/
structure Recommendation where
  person : SpecProfile
  similarity : Similarity
  reasons : List String
  deriving DecidableEq, Repr

/-- Modelled from the spec: `RecommendationSet` of section 3. -/
structure RecommendationSet where
  targetPerson : SpecProfile
  recommendations : List Recommendation
  totalCandidates : Nat
  searchQueries : List String
  deriving DecidableEq, Repr

deriving instance DecidableEq for Except

/-- Modelled from the spec: step 1 of the missing CandidateRecommender (section 4.4):
the display names of the top 3 normalized skills and strengths, or the professional
headline when there is none. -/
def deriveQueries (target : SpecProfile) : List String :=
  let top := ((normalize (target.skills ++ target.strengths)).take 3).map (fun e => e.name)
  if top = [] then [target.headline] else top

/-- Modelled from the spec: "deduplicate by username" of step 3 of the missing
CandidateRecommender (section 4.4), keeping the first of each username. -/
def dedupByUsername : List SpecProfile → List SpecProfile
  | [] => []
  | p :: ps => p :: (dedupByUsername ps).filter (fun q => decide (q.username ≠ p.username))

/-- Modelled from the spec: steps 2 and 3 of the missing CandidateRecommender
(section 4.4): the candidates of the queries that succeeded, merged, deduplicated,
without the target and the excluded usernames. `search` is the Profile Data Source,
`none` for a query that failed. -/
def candidatePool (search : String → Option (List SpecProfile)) (target : SpecProfile)
    (options : RecommendOptions) (queries : List String) : List SpecProfile :=
  (dedupByUsername (queries.filterMap search).flatten).filter
    (fun c => decide (c.username ≠ target.username ∧ c.username ∉ options.excludeUsernames))

/-- A candidate with its similarity to the target. -/
abbrev Scored := SpecProfile × Similarity

/-- Modelled from the spec: step 5 of the missing CandidateRecommender (section 4.4):
the candidate scored against the target by `compare`. `compare` rejects only a
candidate with the username of the target, which step 3 has removed from the pool. -/
def scoreCandidate (policy : ScoreWeights) (months : SpecExperience → ℤ)
    (target c : SpecProfile) : Option Scored :=
  match compare policy months (some target) (some c) with
  | .ok r => some (c, r.similarity)
  | .error _ => none

/-- Modelled from the spec: the test of step 6 of the missing CandidateRecommender
(section 4.4), "filter out `overallScore < minSimilarityScore`"; a score that is not a
number is less than no number. -/
def belowMinimum (minSimilarityScore : ℚ) (x : Scored) : Bool :=
  match x.2.overallScore with
  | some s => decide (s < minSimilarityScore)
  | none => false

/-- Modelled from the spec: the overall score as the number that step 7 of the missing
CandidateRecommender (section 4.4) sorts by; 0 stands for a score that is not a number,
which no comparison yields. -/
def rankScore (x : Scored) : ℚ := x.2.overallScore.getD 0

/-- Modelled from the spec: the order of step 7 of the missing CandidateRecommender
(section 4.4): overall score descending, username ascending on ties. -/
def rankBefore (a b : Scored) : Prop :=
  rankScore b < rankScore a ∨
    (rankScore a = rankScore b ∧ a.1.username.toList ≤ b.1.username.toList)

instance : DecidableRel rankBefore := fun a b =>
  inferInstanceAs (Decidable
    (rankScore b < rankScore a ∨
      (rankScore a = rankScore b ∧ a.1.username.toList ≤ b.1.username.toList)))

/-- Modelled from the spec: `recommend` of section 4.4, the contract of the missing
CandidateRecommender. `explain` stands for the reasons of step 9, of which at most 2
are kept; the call fails only when every query fails. -/
def recommend (policy : ScoreWeights) (months : SpecExperience → ℤ)
    (search : String → Option (List SpecProfile)) (explain : Similarity → List String)
    (target : SpecProfile) (options : RecommendOptions) :
    Except CoreError RecommendationSet :=
  let queries := deriveQueries target
  if queries.all (fun q => (search q).isNone) then .error .dataSource
  else
    let pool := candidatePool search target options queries
    let scored := pool.filterMap (scoreCandidate policy months target)
    let kept := scored.filter (fun x => !belowMinimum options.minSimilarityScore x)
    let ranked := (kept.insertionSort rankBefore).take options.limit
    .ok
      { targetPerson := target
        recommendations := ranked.map
          (fun x => { person := x.1, similarity := x.2, reasons := (explain x.2).take 2 })
        totalCandidates := pool.length
        searchQueries := queries }

/-! ## The recommendations view -/

/-- The options object that `handleGetRecommendations` passes to
`getRecommendationsForPerson` (`RecommendationsView.jsx`, lines 36-39): limit 20 and
minimum score 0.1; no usernames are excluded. -/
def viewOptions : RecommendOptions :=
  { limit := 20, minSimilarityScore := 1 / 10, excludeUsernames := [] }

/-- The list `displayedRecommendations` (`RecommendationsView.jsx`, line 42):
`recommendations.recommendations || []`, `none` for a property that is not set. -/
def displayedRecommendations (recommendations : Option (List Recommendation)) :
    List Recommendation :=
  recommendations.getD []

/-- The cards of the recommendations grid (`RecommendationsView.jsx`, lines 44-52, 174
and 225-232), each with its React `key` and its `index`. With no person selected
(`selectedPeople.length === 0`, the number of selected people being `selectedPeople`)
the view returns the panel "No People Selected" and no card; otherwise there is one card
per displayed recommendation when the view is not loading, has no error and the list is
set. -/
def recommendationCards (selectedPeople : Nat) (isLoading hasError : Bool)
    (recommendations : Option (List Recommendation)) :
    List (String × Nat × Recommendation) :=
  if selectedPeople = 0 then []
  else if !isLoading && !hasError && recommendations.isSome then
    (displayedRecommendations recommendations).enum.map
      (fun p => (p.2.person.username, p.1, p.2))
  else []

/-- A data source that answers the query "Go" with three profiles and fails on every
other query. -/
def sampleSearch (query : String) : Option (List SpecProfile) :=
  if query = "Go" then some [emptyProfile, exampleA, exampleB, emptyProfile] else none

/-- A stand-in for the reasons of step 9. -/
def sampleExplain (_ : Similarity) : List String :=
  ["Shares expertise", "Overall profile compatibility", "Third reason"]

/-- The recommendation set of the sample run: "bo" with score 0.29 before "di" with
score 0.15. -/
def sampleSet : RecommendationSet :=
  { targetPerson := exampleA
    recommendations :=
      [{ person := exampleB
         similarity :=
           { overallScore := some (29 / 100)
             skillsScore := some (7 / 20)
             strengthsScore := some 0
             experienceScore := some (1 / 2)
             details :=
               { commonSkills := [⟨"Go", some (4 / 5)⟩]
                 uniqueSkillsA := [⟨"SQL", some (1 / 2)⟩]
                 uniqueSkillsB := [⟨"Rust", some (3 / 5)⟩] } }
         reasons := ["Shares expertise", "Overall profile compatibility"] },
       { person := emptyProfile
         similarity :=
           { overallScore := some (3 / 20)
             skillsScore := some 0
             strengthsScore := some 0
             experienceScore := some (1 / 2)
             details :=
               { commonSkills := []
                 uniqueSkillsA := [⟨"Go", some (9 / 10)⟩, ⟨"SQL", some (1 / 2)⟩]
                 uniqueSkillsB := [] } }
         reasons := ["Shares expertise", "Overall profile compatibility"] }]
    totalCandidates := 2
    searchQueries := ["Go", "SQL"] }

/-! ## `analyzeTrendingSkills` on arbitrary data

The argument of `analyzeTrendingSkills` is now any data value (no methods or getters
of its own), so that the statements of the `try` block can throw a `TypeError`, which
the `catch` block turns into the failure report. -/

/-- The value of `person.skills` or `person.strengths`: a falsy value (absent, `null`,
`0`, `""`, `false`), which the `if` skips; an array, whose entries are strings, objects
or (`none`) `null` and `undefined`; or a truthy value without a `forEach` method (a
number, `true`, a non-empty string, a plain object). -/
inductive RawEntries where
  | falsy
  | list (entries : List (Option SkillEntry))
  | notList
  deriving DecidableEq, Repr

/-- An element of `searchResults`: `null` or `undefined`, or any other value, of which
`skills` and `strengths` are read (both falsy for a number, a string or a boolean). -/
inductive RawPerson where
  | nullish
  | value (skills strengths : RawEntries)
  deriving DecidableEq, Repr

/-- The argument `searchResults`: an array, or a value without a `forEach` method
(`undefined`, `null`, a number, a string, a boolean, a plain object). -/
inductive RawResults where
  | list (people : List RawPerson)
  | notList
  deriving DecidableEq, Repr

/-- The statement of the `try` block at which a `TypeError` is thrown. -/
inductive TrendFailure where
  | forEachOfResults
  | skillsOfPerson
  | forEachOfSkills
  | nameOfSkill
  | forEachOfStrengths
  | nameOfStrength
  deriving DecidableEq, Repr

/-- The inner `forEach` (lines 228-231 and 236-239) on an array: reading `skill.name`
of `null` or `undefined` throws, which ends the loop. -/
def bumpEntries (failure : TrendFailure) :
    JsMap → List (Option SkillEntry) → Except TrendFailure JsMap
  | m, [] => .ok m
  | _, none :: _ => .error failure
  | m, some skill :: rest => bumpEntries failure (bump m skill) rest

/-- The statement `if (person.skills) { person.skills.forEach(..) }` (lines 227-232) and
its twin for strengths (lines 235-240). -/
def countEntries (notList nullEntry : TrendFailure) (m : JsMap) :
    RawEntries → Except TrendFailure JsMap
  | .falsy => .ok m
  | .notList => .error notList
  | .list entries => bumpEntries nullEntry m entries

/-- The body of the outer `forEach` (lines 225-241) on any element: reading
`person.skills` of `null` or `undefined` throws. -/
def visitRaw (acc : JsMap × JsMap) : RawPerson → Except TrendFailure (JsMap × JsMap)
  | .nullish => .error .skillsOfPerson
  | .value skills strengths =>
    match countEntries .forEachOfSkills .nameOfSkill acc.1 skills with
    | .error e => .error e
    | .ok skillsMap =>
      match countEntries .forEachOfStrengths .nameOfStrength acc.2 strengths with
      | .error e => .error e
      | .ok strengthsMap => .ok (skillsMap, strengthsMap)

/-- The outer `forEach` (lines 225-241) on an array, from the given maps. -/
def visitAll : JsMap × JsMap → List RawPerson → Except TrendFailure (JsMap × JsMap)
  | acc, [] => .ok acc
  | acc, person :: rest =>
    match visitRaw acc person with
    | .error e => .error e
    | .ok acc' => visitAll acc' rest

/-- The `try` block of `analyzeTrendingSkills` (lines 221-264): the report it returns,
or the statement at which it throws. -/
def tryAnalyze : RawResults → Except TrendFailure TrendReport
  | .notList => .error .forEachOfResults
  | .list people =>
    match visitAll ([], []) people with
    | .error e => .error e
    | .ok maps =>
      .ok
        { topSkills := topTen maps.1
          topStrengths := topTen maps.2
          totalPeople := people.length
          analysis := some
            { mostPopularSkill := mostPopular (topTen maps.1)
              mostPopularStrength := mostPopular (topTen maps.2)
              skillDiversity := maps.1.length
              strengthDiversity := maps.2.length }
          error := none }

/-- The report of the `catch` block (lines 267-273) for an error with the given
message. -/
def failureReport (message : String) : TrendReport :=
  { topSkills := [], topStrengths := [], totalPeople := 0, analysis := none
    error := some message }

/-- The function `analyzeTrendingSkills` (lines 220-275) on any data value, `try` and
`catch` included. `message` is the `error.message` of the `TypeError` that the engine
throws at a statement. -/
def analyzeTrendingSkillsOfData (message : TrendFailure → String)
    (searchResults : RawResults) : TrendReport :=
  match tryAnalyze searchResults with
  | .ok report => report
  | .error e => failureReport (message e)

/-- A list of profiles as a data value. -/
def Profile.toRaw (p : Profile) : RawPerson :=
  .value
    (match p.skills with
      | some skills => .list (skills.map some)
      | none => .falsy)
    (match p.strengths with
      | some strengths => .list (strengths.map some)
      | none => .falsy)

/-- A profile is broken when its `skills` or `strengths` is a truthy value that is not
a list, or a list with a `null` entry. -/
def RawEntries.broken : RawEntries → Bool
  | .falsy => false
  | .notList => true
  | .list entries => entries.any Option.isNone

/-- An element of `searchResults` on which the loop body throws: `null`, or a value
with broken `skills` or `strengths`. -/
def RawPerson.broken : RawPerson → Bool
  | .nullish => true
  | .value skills strengths => skills.broken || strengths.broken

/-- The engine messages used in the sample runs. -/
def sampleMessage : TrendFailure → String
  | .forEachOfResults => "searchResults.forEach is not a function"
  | .skillsOfPerson => "Cannot read properties of null (reading skills)"
  | .forEachOfSkills => "person.skills.forEach is not a function"
  | .nameOfSkill => "Cannot read properties of null (reading name)"
  | .forEachOfStrengths => "person.strengths.forEach is not a function"
  | .nameOfStrength => "Cannot read properties of null (reading name)"

/-! ## Error messages -/

/-- The message `msg` begins with `p`. -/
def beginsWith (p msg : String) : Prop := p.data <+: msg.data

instance (p msg : String) : Decidable (beginsWith p msg) :=
  inferInstanceAs (Decidable (p.data <+: msg.data))

/-- The message begins with exactly one of 'API Error ', 'Network error: ' and
'Request error: '. -/
def hasOneErrorPrefix (msg : String) : Prop :=
  (beginsWith "API Error " msg ∧ ¬ beginsWith "Network error: " msg ∧
      ¬ beginsWith "Request error: " msg) ∨
  (¬ beginsWith "API Error " msg ∧ beginsWith "Network error: " msg ∧
      ¬ beginsWith "Request error: " msg) ∨
  (¬ beginsWith "API Error " msg ∧ ¬ beginsWith "Network error: " msg ∧
      beginsWith "Request error: " msg)

/-- The number of lines that are not blank, a line being blank when it holds nothing
but whitespace. -/
def nonBlankCount (lines : List (List Char)) : Nat :=
  (lines.filter (fun l => decide (jsTrimChars l ≠ []))).length

/-- The value of one line among the raw results: the value that `JSON.parse` returns
when it is truthy. -/
def truthyValue (parse : String → Option RawItem) (line : String) : Option RawItem :=
  match parse line with
  | some v => if v = .falsy then none else some v
  | none => none

/-- A stand-in for `JSON.parse` on three lines: the number `0`, the object
`{"username":"ana"}` and, as on every other line, a syntax error. -/
def sampleParse (line : String) : Option RawItem :=
  if line = "0" then some .falsy
  else if line = "\x7b\"username\":\"ana\"\x7d" then
    some (.object ⟨.str "ana", .undefined, .undefined, .undefined, .undefined, .undefined,
      .undefined, .undefined, .undefined, .undefined, .undefined, .undefined⟩)
  else none

/-! ## Pages of profiles -/

/-- One profile with eleven skills, named "k" down to "b" and then "z". -/
def elevenSkillsZ : List Profile :=
  [⟨some [.str "k", .str "j", .str "i", .str "h", .str "g", .str "f", .str "e", .str "d",
      .str "c", .str "b", .str "z"], none⟩]

/-- A page of one profile with the skill "a". -/
def lastPage : List Profile := [⟨some [.str "a"], none⟩]

/-- The report that lines 244-264 build from the two maps and from
`searchResults.length`. -/
def reportOf (maps : JsMap × JsMap) (length : Nat) : TrendReport :=
  { topSkills := topTen maps.1
    topStrengths := topTen maps.2
    totalPeople := length
    analysis := some
      { mostPopularSkill := mostPopular (topTen maps.1)
        mostPopularStrength := mostPopular (topTen maps.2)
        skillDiversity := maps.1.length
        strengthDiversity := maps.2.length }
    error := none }

/-! ## Calls of `analyzeTrendingSkills` on a heap of maps

A call is a step on the heap of `Map` objects: it starts from the maps that exist,
whoever created them, and leaves the heap it has built. A map kept between calls,
at module level or elsewhere, is one of the maps the call starts from. -/

/-- Every `Map` object that exists, by address. -/
abbrev MapHeap := List JsMap

/-- The map at an address. -/
def MapHeap.read (heap : MapHeap) (address : Nat) : JsMap := heap.getD address []

/-- The heap after the map at an address has been changed to `m`. -/
def MapHeap.write (heap : MapHeap) (address : Nat) (m : JsMap) : MapHeap :=
  heap.set address m

/-- The expression `new Map()` (lines 222-223): the address of a new, empty map and the
heap that holds it behind the maps that existed. -/
def newMap (heap : MapHeap) : Nat × MapHeap := (heap.length, heap ++ [[]])

/-- The body of the inner `forEach` (lines 228-231 and 236-239) on the map at an
address: `map.set(name, (map.get(name) || 0) + 1)`. -/
def bumpAt (address : Nat) (heap : MapHeap) (skill : SkillEntry) : MapHeap :=
  heap.write address (bump (heap.read address) skill)

/-- The body of the outer `forEach` (lines 225-241), `skillsMap` and `strengthsMap`
being the addresses of the two maps. -/
def visitAt (skillsMap strengthsMap : Nat) (heap : MapHeap) (person : Profile) : MapHeap :=
  let heap :=
    match person.skills with
    | some skills => skills.foldl (bumpAt skillsMap) heap
    | none => heap
  match person.strengths with
  | some strengths => strengths.foldl (bumpAt strengthsMap) heap
  | none => heap

/-- One call of `analyzeTrendingSkills` (lines 220-264) on a list of profiles, from the
heap it finds: the report it returns and the heap it leaves. -/
def analyzeTrendingSkillsCall (heap : MapHeap) (searchResults : List Profile) :
    TrendReport × MapHeap :=
  let skillsMap := (newMap heap).1
  let heap₁ := (newMap heap).2
  let strengthsMap := (newMap heap₁).1
  let heap₂ := (newMap heap₁).2
  let heap₃ := searchResults.foldl (visitAt skillsMap strengthsMap) heap₂
  (reportOf (heap₃.read skillsMap, heap₃.read strengthsMap) searchResults.length, heap₃)

/-! ## The `Map` operations -/

theorem JsMap.get_set (m : JsMap) (k k' : SkillEntry) (v : Nat) :
    JsMap.get (JsMap.set m k v) k' = if k = k' then some v else JsMap.get m k' := by
  induction m with
  | nil => simp [JsMap.set, JsMap.get]
  | cons e rest ih =>
    obtain ⟨a, b⟩ := e
    by_cases h : a = k
    · subst h
      by_cases h' : a = k' <;> simp [JsMap.set, JsMap.get, h']
    · by_cases h' : a = k'
      · subst h'
        have hne : ¬ k = a := fun e => h e.symm
        simp [JsMap.set, JsMap.get, h, hne]
      · simp [JsMap.set, JsMap.get, h, h', ih]

theorem JsMap.keys_set (m : JsMap) (k : SkillEntry) (v : Nat) :
    (JsMap.set m k v).keys = if k ∈ m.keys then m.keys else m.keys ++ [k] := by
  induction m with
  | nil => simp [JsMap.set, JsMap.keys]
  | cons e rest ih =>
    obtain ⟨a, b⟩ := e
    by_cases h : a = k
    · subst h
      simp [JsMap.set, JsMap.keys]
    · have hne : ¬ k = a := fun e => h e.symm
      simp only [JsMap.keys] at ih
      by_cases hm : k ∈ List.map Prod.fst rest
      · simp [JsMap.set, JsMap.keys, h, hne, hm, ih]
      · simp [JsMap.set, JsMap.keys, h, hne, hm, ih]

theorem JsMap.get_eq_none (m : JsMap) (k : SkillEntry) (h : k ∉ m.keys) :
    JsMap.get m k = none := by
  induction m with
  | nil => simp [JsMap.get]
  | cons e rest ih =>
    obtain ⟨a, b⟩ := e
    simp only [JsMap.keys, List.map_cons, List.mem_cons, not_or] at h
    have hne : ¬ a = k := fun e => h.1 e.symm
    simp only [JsMap.get, hne, if_false]
    exact ih h.2

theorem JsMap.get_of_mem (m : JsMap) (hnd : m.keys.Nodup) (k : SkillEntry) (v : Nat)
    (h : (k, v) ∈ m) : JsMap.get m k = some v := by
  induction m with
  | nil => simp at h
  | cons e rest ih =>
    obtain ⟨a, b⟩ := e
    simp only [JsMap.keys, List.map_cons, List.nodup_cons] at hnd
    rcases List.mem_cons.mp h with h | h
    · cases h
      simp [JsMap.get]
    · have hne : ¬ a = k := by
        intro e
        subst e
        exact hnd.1 (List.mem_map_of_mem Prod.fst h)
      simp only [JsMap.get, hne, if_false]
      exact ih hnd.2 h

/-! ## Counting keys -/

theorem countKeys_append (m : JsMap) (ks ks' : List SkillEntry) :
    countKeys m (ks ++ ks') = countKeys (countKeys m ks) ks' := by
  simp [countKeys, List.foldl_append]

theorem foldl_bump_eq (m : JsMap) (es : List SkillEntry) :
    es.foldl bump m = countKeys m (es.map skillName) := by
  induction es generalizing m with
  | nil => rfl
  | cons e es ih => simp only [List.foldl_cons, List.map_cons, countKeys, ih]; rfl

theorem countKeys_getD (ks : List SkillEntry) (m : JsMap) (k : SkillEntry) :
    (JsMap.get (countKeys m ks) k).getD 0 = (JsMap.get m k).getD 0 + ks.count k := by
  induction ks generalizing m with
  | nil => simp [countKeys]
  | cons a ks ih =>
    have step : countKeys m (a :: ks) = countKeys (bumpKey m a) ks := rfl
    rw [step, ih, bumpKey, JsMap.get_set]
    by_cases h : a = k
    · subst h
      simp
      omega
    · simp [h, List.count_cons]

theorem countKeys_keys_nodup (ks : List SkillEntry) (m : JsMap) (h : m.keys.Nodup) :
    (countKeys m ks).keys.Nodup := by
  induction ks generalizing m with
  | nil => simpa [countKeys] using h
  | cons a ks ih =>
    have step : countKeys m (a :: ks) = countKeys (bumpKey m a) ks := rfl
    rw [step]
    apply ih
    rw [bumpKey, JsMap.keys_set]
    split_ifs with hm
    · exact h
    · exact List.Nodup.append h (List.nodup_singleton a) (by simpa using hm)

theorem mem_countKeys_keys (ks : List SkillEntry) (m : JsMap) (k : SkillEntry) :
    k ∈ (countKeys m ks).keys ↔ k ∈ m.keys ∨ k ∈ ks := by
  induction ks generalizing m with
  | nil => simp [countKeys]
  | cons a ks ih =>
    have step : countKeys m (a :: ks) = countKeys (bumpKey m a) ks := rfl
    rw [step, ih, bumpKey, JsMap.keys_set]
    split_ifs with hm
    · constructor
      · rintro (h | h)
        · exact Or.inl h
        · exact Or.inr (List.mem_cons_of_mem _ h)
      · rintro (h | h)
        · exact Or.inl h
        · rcases List.mem_cons.mp h with h | h
          · exact Or.inl (h ▸ hm)
          · exact Or.inr h
    · simp only [List.mem_append, List.mem_singleton, List.mem_cons]
      tauto

theorem countKeys_values (ks : List SkillEntry) (k : SkillEntry) (v : Nat)
    (h : (k, v) ∈ countKeys [] ks) : v = ks.count k := by
  have hnd : (countKeys [] ks).keys.Nodup := countKeys_keys_nodup ks [] (by simp [JsMap.keys])
  have hget := JsMap.get_of_mem _ hnd k v h
  have hcount := countKeys_getD ks [] k
  rw [hget] at hcount
  simpa [JsMap.get] using hcount

theorem countKeys_length (ks : List SkillEntry) :
    (countKeys [] ks).length = ks.dedup.length := by
  have hnd : (countKeys [] ks).keys.Nodup := countKeys_keys_nodup ks [] (by simp [JsMap.keys])
  have hperm : (countKeys [] ks).keys.Perm ks.dedup := by
    rw [List.perm_ext_iff_of_nodup hnd (List.nodup_dedup ks)]
    intro a
    rw [mem_countKeys_keys, List.mem_dedup]
    simp [JsMap.keys]
  have hlen := hperm.length_eq
  simpa [JsMap.keys] using hlen

/-- The keys of the map stand in the order in which they first occur in `ks`. -/
theorem countKeys_keys_order (ks : List SkillEntry) :
    (countKeys [] ks).keys.Pairwise (fun a b => ks.indexOf a < ks.indexOf b) := by
  induction ks using List.reverseRecOn with
  | nil => simp [countKeys, JsMap.keys]
  | append_singleton ks k ih =>
    have hmem : ∀ a, a ∈ (countKeys [] ks).keys → a ∈ ks := by
      intro a ha
      simpa [JsMap.keys] using (mem_countKeys_keys ks [] a).mp ha
    have hold : (countKeys [] ks).keys.Pairwise
        (fun a b => (ks ++ [k]).indexOf a < (ks ++ [k]).indexOf b) := by
      refine List.Pairwise.imp_of_mem ?_ ih
      intro a b ha hb hab
      rw [List.indexOf_append_of_mem (hmem a ha), List.indexOf_append_of_mem (hmem b hb)]
      exact hab
    rw [countKeys_append]
    have step : countKeys (countKeys [] ks) [k] = bumpKey (countKeys [] ks) k := rfl
    rw [step, bumpKey, JsMap.keys_set]
    split_ifs with hk
    · exact hold
    · have hk' : k ∉ ks := by
        intro hin
        exact hk ((mem_countKeys_keys ks [] k).mpr (Or.inr hin))
      rw [List.pairwise_append]
      refine ⟨hold, List.pairwise_singleton _ _, ?_⟩
      intro a ha b hb
      rw [List.mem_singleton] at hb
      subst hb
      rw [List.indexOf_append_of_mem (hmem a ha), List.indexOf_append_of_not_mem hk']
      have := List.indexOf_lt_length.mpr (hmem a ha)
      omega

/-! ## The loop over the profiles -/

theorem visit_eq (m₁ m₂ : JsMap) (p : Profile) :
    visit (m₁, m₂) p = (countKeys m₁ (skillKeys p), countKeys m₂ (strengthKeys p)) := by
  obtain ⟨sk, st⟩ := p
  cases sk <;> cases st <;>
    simp [visit, skillKeys, strengthKeys, foldl_bump_eq, countKeys]

theorem foldl_visit_eq (xs : List Profile) (m₁ m₂ : JsMap) :
    xs.foldl visit (m₁, m₂) =
      (countKeys m₁ (allSkillKeys xs), countKeys m₂ (allStrengthKeys xs)) := by
  induction xs generalizing m₁ m₂ with
  | nil => simp [allSkillKeys, allStrengthKeys, countKeys]
  | cons p xs ih =>
    rw [List.foldl_cons, visit_eq, ih]
    simp [allSkillKeys, allStrengthKeys, countKeys_append]

theorem skillsMap_eq (xs : List Profile) : skillsMap xs = countKeys [] (allSkillKeys xs) := by
  simp [skillsMap, tally, foldl_visit_eq]

theorem strengthsMap_eq (xs : List Profile) :
    strengthsMap xs = countKeys [] (allStrengthKeys xs) := by
  simp [strengthsMap, tally, foldl_visit_eq]

theorem allSkillKeys_append (xs ys : List Profile) :
    allSkillKeys (xs ++ ys) = allSkillKeys xs ++ allSkillKeys ys := by
  simp [allSkillKeys]

theorem allStrengthKeys_append (xs ys : List Profile) :
    allStrengthKeys (xs ++ ys) = allStrengthKeys xs ++ allStrengthKeys ys := by
  simp [allStrengthKeys]

/-! ## The stable sort by count -/

/-- Insertion into a list sorted by count that also keeps ties in the order `P`,
of an element that is `P`-before all of the list. -/
theorem orderedInsert_stable (P : SkillEntry × Nat → SkillEntry × Nat → Prop)
    (a : SkillEntry × Nat) (l : List (SkillEntry × Nat))
    (hl : l.Pairwise (fun x y => byCountDesc x y ∧ (byCountDesc y x → P x y)))
    (ha : ∀ y ∈ l, P a y) :
    (l.orderedInsert byCountDesc a).Pairwise
      (fun x y => byCountDesc x y ∧ (byCountDesc y x → P x y)) := by
  induction l with
  | nil => simp
  | cons b l ih =>
    rw [List.pairwise_cons] at hl
    rw [List.orderedInsert]
    split_ifs with hab
    · rw [List.pairwise_cons]
      refine ⟨?_, List.pairwise_cons.mpr hl⟩
      intro y hy
      rcases List.mem_cons.mp hy with hy | hy
      · subst hy
        exact ⟨hab, fun _ => ha _ (List.mem_cons_self _ _)⟩
      · exact ⟨Nat.le_trans (hl.1 y hy).1 hab, fun _ => ha y (List.mem_cons_of_mem _ hy)⟩
    · rw [List.pairwise_cons]
      refine ⟨?_, ih hl.2 (fun y hy => ha y (List.mem_cons_of_mem _ hy))⟩
      intro y hy
      rcases (List.mem_orderedInsert byCountDesc).mp hy with hy | hy
      · subst hy
        have hba : byCountDesc b y := Nat.le_of_lt (Nat.lt_of_not_le hab)
        exact ⟨hba, fun h => absurd h hab⟩
      · exact hl.1 y hy

/-- The sort keeps entries with equal counts in the order they had before. -/
theorem insertionSort_stable (P : SkillEntry × Nat → SkillEntry × Nat → Prop)
    (l : List (SkillEntry × Nat)) (hl : l.Pairwise P) :
    (l.insertionSort byCountDesc).Pairwise
      (fun x y => byCountDesc x y ∧ (byCountDesc y x → P x y)) := by
  induction l with
  | nil => simp
  | cons a l ih =>
    rw [List.pairwise_cons] at hl
    rw [List.insertionSort]
    apply orderedInsert_stable P a _ (ih hl.2)
    intro y hy
    exact hl.1 y ((List.mem_insertionSort byCountDesc).mp hy)

/-- The sorted entries of a map built by counting the keys `ks`: counts descend, and
entries with equal counts stand in the order in which their keys first occur in `ks`. -/
theorem sorted_countKeys (ks : List SkillEntry) :
    ((countKeys [] ks).insertionSort byCountDesc).Pairwise
      (fun x y => y.2 ≤ x.2 ∧ (x.2 = y.2 → ks.indexOf x.1 < ks.indexOf y.1)) := by
  have hord : (countKeys [] ks).Pairwise (fun x y => ks.indexOf x.1 < ks.indexOf y.1) := by
    have := countKeys_keys_order ks
    rw [JsMap.keys, List.pairwise_map] at this
    exact this
  refine (insertionSort_stable _ _ hord).imp ?_
  intro x y h
  refine ⟨h.1, fun heq => h.2 ?_⟩
  show x.2 ≤ y.2
  omega

/-! ## The top ten -/

theorem mem_topTen (m : JsMap) (e : TrendEntry) (h : e ∈ topTen m) :
    (e.name, e.count) ∈ m := by
  simp only [topTen, List.mem_map] at h
  obtain ⟨x, hx, rfl⟩ := h
  exact (List.mem_insertionSort byCountDesc).mp (List.mem_of_mem_take hx)

theorem topTen_length (m : JsMap) : (topTen m).length = min 10 m.length := by
  simp [topTen, List.length_take, List.length_insertionSort]

theorem topTen_count (ks : List SkillEntry) (e : TrendEntry)
    (h : e ∈ topTen (countKeys [] ks)) : e.count = ks.count e.name :=
  countKeys_values ks e.name e.count (mem_topTen _ e h)

/-- The entries of the top ten, in order: counts descend, ties stand in the order in
which the keys first occur in `ks`. -/
theorem topTen_pairwise (ks : List SkillEntry) :
    (topTen (countKeys [] ks)).Pairwise
      (fun a b => b.count ≤ a.count ∧
        (a.count = b.count → ks.indexOf a.name < ks.indexOf b.name)) := by
  rw [topTen, List.pairwise_map]
  exact (sorted_countKeys ks).sublist (List.take_sublist _ _)

/-- A key that was counted and is not named in the top ten stands, in the sorted
entries, behind the tenth. -/
theorem mem_drop_of_not_topTen (ks : List SkillEntry) (k : SkillEntry) (hk : k ∈ ks)
    (hnot : k ∉ (topTen (countKeys [] ks)).map TrendEntry.name) :
    (k, ks.count k) ∈ ((countKeys [] ks).insertionSort byCountDesc).drop 10 := by
  have hkeys : k ∈ (countKeys [] ks).keys := (mem_countKeys_keys ks [] k).mpr (Or.inr hk)
  simp only [JsMap.keys, List.mem_map] at hkeys
  obtain ⟨⟨k', v⟩, hmem, hk'⟩ := hkeys
  simp only at hk'
  subst hk'
  have hv := countKeys_values ks k' v hmem
  subst hv
  have hS : (k', ks.count k') ∈ (countKeys [] ks).insertionSort byCountDesc :=
    (List.mem_insertionSort byCountDesc).mpr hmem
  rw [← List.take_append_drop 10 ((countKeys [] ks).insertionSort byCountDesc),
    List.mem_append] at hS
  rcases hS with hS | hS
  · exfalso
    apply hnot
    simp only [topTen, List.map_map, List.mem_map]
    exact ⟨_, hS, rfl⟩
  · exact hS

/-- A key outside the top ten has at most the count of every entry of the top ten,
and on equal counts it first occurs later in `ks`. -/
theorem topTen_cutoff (ks : List SkillEntry) (k : SkillEntry) (hk : k ∈ ks)
    (hnot : k ∉ (topTen (countKeys [] ks)).map TrendEntry.name)
    (e : TrendEntry) (he : e ∈ topTen (countKeys [] ks)) :
    ks.count k ≤ e.count ∧ (e.count = ks.count k → ks.indexOf e.name < ks.indexOf k) := by
  have hdrop := mem_drop_of_not_topTen ks k hk hnot
  simp only [topTen, List.mem_map] at he
  obtain ⟨x, hx, rfl⟩ := he
  have hsorted := sorted_countKeys ks
  rw [← List.take_append_drop 10 ((countKeys [] ks).insertionSort byCountDesc),
    List.pairwise_append] at hsorted
  exact hsorted.2.2 x hx _ hdrop

theorem count_flatMap_of_nodup (keys : Profile → List SkillEntry) (xs : List Profile)
    (h : ∀ p ∈ xs, (keys p).Nodup) (k : SkillEntry) :
    (xs.flatMap keys).count k = profilesWith keys xs k := by
  induction xs with
  | nil => simp [profilesWith]
  | cons p xs ih =>
    have hp : (keys p).Nodup := h p (List.mem_cons_self _ _)
    have ih' := ih (fun q hq => h q (List.mem_cons_of_mem _ hq))
    simp only [profilesWith] at ih' ⊢
    rw [List.flatMap_cons, List.count_append, ih', List.filter_cons]
    by_cases hk : k ∈ keys p
    · simp [hk, List.count_eq_one_of_mem hp hk]
      omega
    · simp [hk, List.count_eq_zero_of_not_mem hk]

theorem topSkills_eq (xs : List Profile) :
    (analyzeTrendingSkills xs).topSkills = topTen (countKeys [] (allSkillKeys xs)) := by
  simp [analyzeTrendingSkills, ← skillsMap_eq, skillsMap]

theorem topStrengths_eq (xs : List Profile) :
    (analyzeTrendingSkills xs).topStrengths = topTen (countKeys [] (allStrengthKeys xs)) := by
  simp [analyzeTrendingSkills, ← strengthsMap_eq, strengthsMap]

theorem skillCount_eq (xs : List Profile) (k : SkillEntry) :
    skillCount xs k = (allSkillKeys xs).count k := by
  simp [skillCount, skillsMap_eq, countKeys_getD, JsMap.get]

theorem strengthCount_eq (xs : List Profile) (k : SkillEntry) :
    strengthCount xs k = (allStrengthKeys xs).count k := by
  simp [strengthCount, strengthsMap_eq, countKeys_getD, JsMap.get]

theorem skillDiversity_eq (xs : List Profile) :
    (analyzeTrendingSkills xs).skillDiversity = (allSkillKeys xs).dedup.length := by
  have h := countKeys_length (allSkillKeys xs)
  rw [← skillsMap_eq, skillsMap] at h
  simpa [analyzeTrendingSkills, TrendReport.skillDiversity] using h

theorem strengthDiversity_eq (xs : List Profile) :
    (analyzeTrendingSkills xs).strengthDiversity = (allStrengthKeys xs).dedup.length := by
  have h := countKeys_length (allStrengthKeys xs)
  rw [← strengthsMap_eq, strengthsMap] at h
  simpa [analyzeTrendingSkills, TrendReport.strengthDiversity] using h

/-- A pairwise relation on a list, read off at two positions. -/
theorem pairwise_at {α : Type} {R : α → α → Prop} {l : List α} (h : l.Pairwise R)
    (i j : Nat) (hij : i < j) (a b : α) (ha : l[i]? = some a) (hb : l[j]? = some b) :
    R a b := by
  rw [List.getElem?_eq_some_iff] at ha hb
  obtain ⟨hi, rfl⟩ := ha
  obtain ⟨hj, rfl⟩ := hb
  exact List.pairwise_iff_getElem.mp h i j hi hj hij

/-! ## Properties of `analyzeTrendingSkills` -/

/-- C1 (as stated, refuted): one profile that lists "Go" twice is reported with count 2,
while the number of profiles whose skills contain "Go" is 1. -/
theorem trend_count_not_per_profile :
    (analyzeTrendingSkills goTwice).topSkills = [⟨.str "Go", 2⟩] ∧
    skillCount goTwice (.str "Go") = 2 ∧
    profilesWith skillKeys goTwice (.str "Go") = 1 := by
  decide

/-- C1 (amended): the count reported for a skill (strength) key is the number of skill
(strength) entries with that key over all profiles, a profile that lists the key several
times contributing once per listing; when no profile lists a key twice it is the number
of profiles whose skills (strengths) contain the key. Three profiles with the one skill
"Go" yield `topSkills[0] = {name: "Go", count: 3}` and `skillDiversity = 1`. -/
theorem trend_count_is_entry_count (xs : List Profile) :
    (∀ e ∈ (analyzeTrendingSkills xs).topSkills,
      e.count = (allSkillKeys xs).count e.name) ∧
    (∀ e ∈ (analyzeTrendingSkills xs).topStrengths,
      e.count = (allStrengthKeys xs).count e.name) ∧
    ((∀ p ∈ xs, (skillKeys p).Nodup) →
      ∀ e ∈ (analyzeTrendingSkills xs).topSkills,
        e.count = profilesWith skillKeys xs e.name) ∧
    ((∀ p ∈ xs, (strengthKeys p).Nodup) →
      ∀ e ∈ (analyzeTrendingSkills xs).topStrengths,
        e.count = profilesWith strengthKeys xs e.name) ∧
    (analyzeTrendingSkills goProfiles).topSkills[0]? = some ⟨.str "Go", 3⟩ ∧
    (analyzeTrendingSkills goProfiles).skillDiversity = 1 := by
  refine ⟨?_, ?_, ?_, ?_, by decide, by decide⟩
  · intro e he
    rw [topSkills_eq] at he
    exact topTen_count _ e he
  · intro e he
    rw [topStrengths_eq] at he
    exact topTen_count _ e he
  · intro hnd e he
    rw [topSkills_eq] at he
    rw [topTen_count _ e he]
    exact count_flatMap_of_nodup skillKeys xs hnd e.name
  · intro hnd e he
    rw [topStrengths_eq] at he
    rw [topTen_count _ e he]
    exact count_flatMap_of_nodup strengthKeys xs hnd e.name

/-- C1 (amended), at two profiles sharing the skill "b". -/
theorem trend_count_is_entry_count_witness :
    (∀ p ∈ abThenBc, (skillKeys p).Nodup) ∧
    (∀ e ∈ (analyzeTrendingSkills abThenBc).topSkills,
      e.count = profilesWith skillKeys abThenBc e.name) :=
  ⟨by decide, (trend_count_is_entry_count abThenBc).2.2.1 (by decide)⟩

/-- C2 (as stated, refuted): after the empty list, a profile that lists "Go" twice
raises the count of "Go" from 0 to 2, not by exactly 1. -/
theorem append_profile_not_plus_one :
    .str "Go" ∈ skillKeys ⟨some [.str "Go", .str "Go"], none⟩ ∧
    skillCount [] (.str "Go") = 0 ∧
    skillCount ([] ++ [⟨some [.str "Go", .str "Go"], none⟩]) (.str "Go") = 2 ∧
    (analyzeTrendingSkills ([] ++ [⟨some [.str "Go", .str "Go"], none⟩])).topSkills
      = [⟨.str "Go", 2⟩] := by
  decide

/-- C2 (amended): analysing `xs` followed by `p`, compared with analysing `xs`, raises
the count of each key by the number of times `p` lists it (so by exactly 1 for each
skill of `p` when `p` lists no skill twice, and by 0 for every other key) and raises the
profile total by exactly 1; likewise for strengths. -/
theorem append_profile_counts (xs : List Profile) (p : Profile) :
    (∀ k, skillCount (xs ++ [p]) k = skillCount xs k + (skillKeys p).count k) ∧
    (∀ k, strengthCount (xs ++ [p]) k = strengthCount xs k + (strengthKeys p).count k) ∧
    ((skillKeys p).Nodup →
      ∀ k ∈ skillKeys p, skillCount (xs ++ [p]) k = skillCount xs k + 1) ∧
    ((strengthKeys p).Nodup →
      ∀ k ∈ strengthKeys p, strengthCount (xs ++ [p]) k = strengthCount xs k + 1) ∧
    (∀ k, k ∉ skillKeys p → skillCount (xs ++ [p]) k = skillCount xs k) ∧
    (∀ k, k ∉ strengthKeys p → strengthCount (xs ++ [p]) k = strengthCount xs k) ∧
    (analyzeTrendingSkills (xs ++ [p])).totalPeople
      = (analyzeTrendingSkills xs).totalPeople + 1 := by
  have hs : ∀ k, skillCount (xs ++ [p]) k = skillCount xs k + (skillKeys p).count k := by
    intro k
    simp [skillCount_eq, allSkillKeys_append, allSkillKeys]
  have ht : ∀ k,
      strengthCount (xs ++ [p]) k = strengthCount xs k + (strengthKeys p).count k := by
    intro k
    simp [strengthCount_eq, allStrengthKeys_append, allStrengthKeys]
  refine ⟨hs, ht, ?_, ?_, ?_, ?_, ?_⟩
  · intro hnd k hk
    rw [hs k, List.count_eq_one_of_mem hnd hk]
  · intro hnd k hk
    rw [ht k, List.count_eq_one_of_mem hnd hk]
  · intro k hk
    rw [hs k, List.count_eq_zero_of_not_mem hk, Nat.add_zero]
  · intro k hk
    rw [ht k, List.count_eq_zero_of_not_mem hk, Nat.add_zero]
  · simp [analyzeTrendingSkills]

/-- C2 (amended), at one profile with skills "b" and "c" after one with "a" and "b". -/
theorem append_profile_counts_witness :
    (skillKeys ⟨some [.str "b", .str "c"], none⟩).Nodup ∧
    .str "b" ∈ skillKeys ⟨some [.str "b", .str "c"], none⟩ ∧
    skillCount ([⟨some [.str "a", .str "b"], none⟩] ++ [⟨some [.str "b", .str "c"], none⟩])
        (.str "b")
      = skillCount [⟨some [.str "a", .str "b"], none⟩] (.str "b") + 1 :=
  ⟨by decide, by decide,
    (append_profile_counts [⟨some [.str "a", .str "b"], none⟩]
      ⟨some [.str "b", .str "c"], none⟩).2.2.1 (by decide) (.str "b") (by decide)⟩

/-- C3: `topSkills` and `topStrengths` are ordered by count descending: for all
positions `i < j`, the count at `i` is at least the count at `j`. -/
theorem top_lists_sorted_by_count (xs : List Profile) (i j : Nat) (hij : i < j) :
    (∀ a b, (analyzeTrendingSkills xs).topSkills[i]? = some a →
      (analyzeTrendingSkills xs).topSkills[j]? = some b → a.count ≥ b.count) ∧
    (∀ a b, (analyzeTrendingSkills xs).topStrengths[i]? = some a →
      (analyzeTrendingSkills xs).topStrengths[j]? = some b → a.count ≥ b.count) := by
  constructor
  · intro a b ha hb
    rw [topSkills_eq] at ha hb
    exact (pairwise_at (topTen_pairwise (allSkillKeys xs)) i j hij a b ha hb).1
  · intro a b ha hb
    rw [topStrengths_eq] at ha hb
    exact (pairwise_at (topTen_pairwise (allStrengthKeys xs)) i j hij a b ha hb).1

/-- C3, at two profiles where "b" is counted twice and "a" once. -/
theorem top_lists_sorted_by_count_witness :
    0 < 1 ∧
    (analyzeTrendingSkills abThenBc).topSkills[0]? = some ⟨.str "b", 2⟩ ∧
    (analyzeTrendingSkills abThenBc).topSkills[1]? = some ⟨.str "a", 1⟩ ∧
    (⟨.str "b", 2⟩ : TrendEntry).count ≥ (⟨.str "a", 1⟩ : TrendEntry).count :=
  ⟨by decide, by decide, by decide,
    (top_lists_sorted_by_count abThenBc 0 1 (by decide)).1 ⟨.str "b", 2⟩ ⟨.str "a", 1⟩
      (by decide) (by decide)⟩

/-- C4: `topSkills` (`topStrengths`) has exactly min(10, number of distinct keys)
entries, and every key that was observed but is not in it has a count that is at most
the count of every entry in it. -/
theorem top_lists_length_and_highest (xs : List Profile) :
    (analyzeTrendingSkills xs).topSkills.length = min 10 (allSkillKeys xs).dedup.length ∧
    (analyzeTrendingSkills xs).topStrengths.length
      = min 10 (allStrengthKeys xs).dedup.length ∧
    (∀ k ∈ allSkillKeys xs,
      k ∉ (analyzeTrendingSkills xs).topSkills.map TrendEntry.name →
      ∀ e ∈ (analyzeTrendingSkills xs).topSkills, skillCount xs k ≤ e.count) ∧
    (∀ k ∈ allStrengthKeys xs,
      k ∉ (analyzeTrendingSkills xs).topStrengths.map TrendEntry.name →
      ∀ e ∈ (analyzeTrendingSkills xs).topStrengths, strengthCount xs k ≤ e.count) := by
  refine ⟨?_, ?_, ?_, ?_⟩
  · rw [topSkills_eq, topTen_length, countKeys_length]
  · rw [topStrengths_eq, topTen_length, countKeys_length]
  · intro k hk hnot e he
    rw [topSkills_eq] at hnot he
    rw [skillCount_eq]
    exact (topTen_cutoff _ k hk hnot e he).1
  · intro k hk hnot e he
    rw [topStrengths_eq] at hnot he
    rw [strengthCount_eq]
    exact (topTen_cutoff _ k hk hnot e he).1

/-- C4, at one profile with eleven skills: "a" is left out, "k" is kept. -/
theorem top_lists_length_and_highest_witness :
    .str "a" ∈ allSkillKeys elevenSkills ∧
    .str "a" ∉ (analyzeTrendingSkills elevenSkills).topSkills.map TrendEntry.name ∧
    ⟨.str "k", 1⟩ ∈ (analyzeTrendingSkills elevenSkills).topSkills ∧
    skillCount elevenSkills (.str "a") ≤ (⟨.str "k", 1⟩ : TrendEntry).count :=
  ⟨by decide, by decide, by decide,
    (top_lists_length_and_highest elevenSkills).2.2.1 (.str "a") (by decide) (by decide)
      ⟨.str "k", 1⟩ (by decide)⟩

/-- C5 (as stated, refuted): eleven skills "k" down to "a", each counted once, are
reported in the order met, "k" before "j" and so on, which is descending key order, and
the key left out at the cut-off is "a", the smallest of all. -/
theorem ties_not_in_key_order :
    (analyzeTrendingSkills elevenSkills).topSkills
      = [⟨.str "k", 1⟩, ⟨.str "j", 1⟩, ⟨.str "i", 1⟩, ⟨.str "h", 1⟩, ⟨.str "g", 1⟩,
         ⟨.str "f", 1⟩, ⟨.str "e", 1⟩, ⟨.str "d", 1⟩, ⟨.str "c", 1⟩, ⟨.str "b", 1⟩] ∧
    "j" < "k" ∧
    skillCount elevenSkills (.str "a") = 1 ∧
    "a" < "b" := by
  refine ⟨by decide, ?_, by decide, ?_⟩
  · exact String.lt_iff_toList_lt.mpr (by decide)
  · exact String.lt_iff_toList_lt.mpr (by decide)

/-- C5 (amended): entries of `topSkills` (`topStrengths`) that have equal counts appear
in the order in which their keys first occur in the input, and a key left out of the
list that ties with an entry of the list first occurs later in the input than that
entry's key. -/
theorem ties_in_first_seen_order (xs : List Profile) :
    (∀ i j : Nat, i < j → ∀ a b : TrendEntry, (analyzeTrendingSkills xs).topSkills[i]? = some a →
      (analyzeTrendingSkills xs).topSkills[j]? = some b → a.count = b.count →
      (allSkillKeys xs).indexOf a.name < (allSkillKeys xs).indexOf b.name) ∧
    (∀ i j : Nat, i < j → ∀ a b : TrendEntry, (analyzeTrendingSkills xs).topStrengths[i]? = some a →
      (analyzeTrendingSkills xs).topStrengths[j]? = some b → a.count = b.count →
      (allStrengthKeys xs).indexOf a.name < (allStrengthKeys xs).indexOf b.name) ∧
    (∀ k ∈ allSkillKeys xs,
      k ∉ (analyzeTrendingSkills xs).topSkills.map TrendEntry.name →
      ∀ e ∈ (analyzeTrendingSkills xs).topSkills, e.count = skillCount xs k →
      (allSkillKeys xs).indexOf e.name < (allSkillKeys xs).indexOf k) ∧
    (∀ k ∈ allStrengthKeys xs,
      k ∉ (analyzeTrendingSkills xs).topStrengths.map TrendEntry.name →
      ∀ e ∈ (analyzeTrendingSkills xs).topStrengths, e.count = strengthCount xs k →
      (allStrengthKeys xs).indexOf e.name < (allStrengthKeys xs).indexOf k) := by
  refine ⟨?_, ?_, ?_, ?_⟩
  · intro i j hij a b ha hb hab
    rw [topSkills_eq] at ha hb
    exact (pairwise_at (topTen_pairwise (allSkillKeys xs)) i j hij a b ha hb).2 hab
  · intro i j hij a b ha hb hab
    rw [topStrengths_eq] at ha hb
    exact (pairwise_at (topTen_pairwise (allStrengthKeys xs)) i j hij a b ha hb).2 hab
  · intro k hk hnot e he hcount
    rw [topSkills_eq] at hnot he
    rw [skillCount_eq] at hcount
    exact (topTen_cutoff _ k hk hnot e he).2 hcount
  · intro k hk hnot e he hcount
    rw [topStrengths_eq] at hnot he
    rw [strengthCount_eq] at hcount
    exact (topTen_cutoff _ k hk hnot e he).2 hcount

/-- C5 (amended), at one profile with eleven skills: "k" and "j" tie and stand in the
order met. -/
theorem ties_in_first_seen_order_witness :
    0 < 1 ∧
    (analyzeTrendingSkills elevenSkills).topSkills[0]? = some ⟨.str "k", 1⟩ ∧
    (analyzeTrendingSkills elevenSkills).topSkills[1]? = some ⟨.str "j", 1⟩ ∧
    (allSkillKeys elevenSkills).indexOf (.str "k")
      < (allSkillKeys elevenSkills).indexOf (.str "j") :=
  ⟨by decide, by decide, by decide,
    (ties_in_first_seen_order elevenSkills).1 0 1 (by decide) ⟨.str "k", 1⟩ ⟨.str "j", 1⟩
      (by decide) (by decide) rfl⟩

/-- C6 (as stated, refuted): the names "Go", "go " and "GO" have one trimmed and
case-folded key, yet they are counted as three keys and produce three entries. -/
theorem diversity_not_normalized :
    ((allSkillKeys caseVariants).map specNormalizedKey).dedup.length = 1 ∧
    (analyzeTrendingSkills caseVariants).skillDiversity = 3 ∧
    (analyzeTrendingSkills caseVariants).topSkills
      = [⟨.str "Go", 1⟩, ⟨.str "go ", 1⟩, ⟨.str "GO", 1⟩] := by
  decide

/-- C6 (amended): `skillDiversity` (`strengthDiversity`) is the number of distinct keys,
where the key of an entry is its name exactly as written, neither trimmed nor
case-folded: a bare string is its own key and an object with a non-empty `name` has
that name as key. -/
theorem diversity_counts_names_as_written (xs : List Profile) :
    (analyzeTrendingSkills xs).skillDiversity = (allSkillKeys xs).dedup.length ∧
    (analyzeTrendingSkills xs).strengthDiversity = (allStrengthKeys xs).dedup.length ∧
    (∀ s : String, skillName (.str s) = .str s) ∧
    (∀ (ref : Nat) (n : String), n ≠ "" → skillName (.obj ref (some n)) = .str n) := by
  refine ⟨skillDiversity_eq xs, strengthDiversity_eq xs, fun _ => rfl, ?_⟩
  intro ref n hn
  simp [skillName, hn]

/-- C6 (amended), at the object `{ name: "go " }`. -/
theorem diversity_counts_names_as_written_witness :
    "go " ≠ "" ∧ skillName (.obj 7 (some "go ")) = .str "go " :=
  ⟨by decide, (diversity_counts_names_as_written caseVariants).2.2.2 7 "go " (by decide)⟩

/-- C7: `totalPeople` is the length of the input list, whatever the profiles hold. -/
theorem totalPeople_eq_length (xs : List Profile) :
    (analyzeTrendingSkills xs).totalPeople = xs.length := by
  rfl

/-- C8 (as stated, refuted): the pages `elevenSkills` and `elevenSkillsZ` have equal
reports (the eleventh key, "a" or "z", is cut off), yet followed by the same page with
the skill "a" they give different reports: "a" leads with count 2 in one and is cut off
in the other. The reports of the pages do not give the report of the whole. -/
theorem page_reports_do_not_give_report :
    analyzeTrendingSkills elevenSkills = analyzeTrendingSkills elevenSkillsZ ∧
    (analyzeTrendingSkills (elevenSkills ++ lastPage)).topSkills
      = [⟨.str "a", 2⟩, ⟨.str "k", 1⟩, ⟨.str "j", 1⟩, ⟨.str "i", 1⟩, ⟨.str "h", 1⟩,
         ⟨.str "g", 1⟩, ⟨.str "f", 1⟩, ⟨.str "e", 1⟩, ⟨.str "d", 1⟩, ⟨.str "c", 1⟩] ∧
    (analyzeTrendingSkills (elevenSkillsZ ++ lastPage)).topSkills
      = [⟨.str "k", 1⟩, ⟨.str "j", 1⟩, ⟨.str "i", 1⟩, ⟨.str "h", 1⟩, ⟨.str "g", 1⟩,
         ⟨.str "f", 1⟩, ⟨.str "e", 1⟩, ⟨.str "d", 1⟩, ⟨.str "c", 1⟩, ⟨.str "b", 1⟩] ∧
    analyzeTrendingSkills (elevenSkills ++ lastPage)
      ≠ analyzeTrendingSkills (elevenSkillsZ ++ lastPage) := by
  decide

/-- C8 (amended): the analysis is a fold over the profile sequence: the count of every
key over `xs ++ ys` is the sum of its counts over `xs` and over `ys`, the profile total is
the sum of the two totals, the two maps after `xs ++ ys` are those of the loop continued
over `ys` from the maps after `xs`, and the report over `xs ++ ys` is built from these
maps and the total. (It is not given by the reports of the pages, which hold the ten top
entries only.) -/
theorem counts_add_over_append (xs ys : List Profile) (k : SkillEntry) :
    skillCount (xs ++ ys) k = skillCount xs k + skillCount ys k ∧
    strengthCount (xs ++ ys) k = strengthCount xs k + strengthCount ys k ∧
    (analyzeTrendingSkills (xs ++ ys)).totalPeople
      = (analyzeTrendingSkills xs).totalPeople + (analyzeTrendingSkills ys).totalPeople ∧
    tally (xs ++ ys) = ys.foldl visit (tally xs) ∧
    analyzeTrendingSkills (xs ++ ys)
      = reportOf (ys.foldl visit (tally xs))
          ((analyzeTrendingSkills xs).totalPeople + ys.length) := by
  have htally : tally (xs ++ ys) = ys.foldl visit (tally xs) := by
    simp only [tally, List.foldl_append]
  refine ⟨?_, ?_, ?_, htally, ?_⟩
  · simp [skillCount_eq, allSkillKeys_append]
  · simp [strengthCount_eq, allStrengthKeys_append]
  · simp [analyzeTrendingSkills]
  · rw [← htally]
    simp only [analyzeTrendingSkills, reportOf, List.length_append]

/-! ## Calls on a heap of maps -/

theorem MapHeap.read_write_same (heap : MapHeap) (a : Nat) (m : JsMap)
    (h : a < heap.length) : (heap.write a m).read a = m := by
  simp [MapHeap.read, MapHeap.write, List.getD_eq_getElem?_getD, h]

theorem MapHeap.read_write_other (heap : MapHeap) (a b : Nat) (m : JsMap) (h : a ≠ b) :
    (heap.write a m).read b = heap.read b := by
  simp [MapHeap.read, MapHeap.write, List.getD_eq_getElem?_getD, h]

theorem MapHeap.length_write (heap : MapHeap) (a : Nat) (m : JsMap) :
    (heap.write a m).length = heap.length := by
  simp [MapHeap.write]

theorem MapHeap.take_write (heap : MapHeap) (a n : Nat) (m : JsMap) (h : n ≤ a) :
    (heap.write a m).take n = heap.take n := by
  apply List.ext_getElem?
  intro i
  simp only [MapHeap.write, List.getElem?_take]
  split
  · rw [List.getElem?_set_ne (by omega)]
  · rfl

/-- The loop over the entries of one profile changes the map at its address as `bump`
does, and no other map. -/
theorem foldl_bumpAt (entries : List SkillEntry) (a : Nat) (heap : MapHeap)
    (h : a < heap.length) :
    (entries.foldl (bumpAt a) heap).read a = entries.foldl bump (heap.read a) ∧
    (entries.foldl (bumpAt a) heap).length = heap.length ∧
    (∀ b, a ≠ b → (entries.foldl (bumpAt a) heap).read b = heap.read b) ∧
    (∀ n, n ≤ a → (entries.foldl (bumpAt a) heap).take n = heap.take n) := by
  induction entries generalizing heap with
  | nil => exact ⟨rfl, rfl, fun _ _ => rfl, fun _ _ => rfl⟩
  | cons e rest ih =>
    have hlen : a < (bumpAt a heap e).length := by
      rw [bumpAt, MapHeap.length_write]
      exact h
    obtain ⟨h1, h2, h3, h4⟩ := ih (bumpAt a heap e) hlen
    simp only [List.foldl_cons]
    refine ⟨?_, ?_, ?_, ?_⟩
    · rw [h1, bumpAt, MapHeap.read_write_same heap a _ h]
    · rw [h2, bumpAt, MapHeap.length_write]
    · intro b hb
      rw [h3 b hb, bumpAt, MapHeap.read_write_other heap a b _ hb]
    · intro n hn
      rw [h4 n hn, bumpAt, MapHeap.take_write heap a n _ hn]

/-- The loop body on the heap changes the two maps as `visit` does, and no other map. -/
theorem visitAt_eq (a₁ a₂ : Nat) (hne : a₁ ≠ a₂) (heap : MapHeap) (h₁ : a₁ < heap.length)
    (h₂ : a₂ < heap.length) (p : Profile) :
    ((visitAt a₁ a₂ heap p).read a₁, (visitAt a₁ a₂ heap p).read a₂)
      = visit (heap.read a₁, heap.read a₂) p ∧
    (visitAt a₁ a₂ heap p).length = heap.length ∧
    (∀ n, n ≤ a₁ → n ≤ a₂ → (visitAt a₁ a₂ heap p).take n = heap.take n) := by
  obtain ⟨sk, st⟩ := p
  cases sk with
  | none =>
    cases st with
    | none => exact ⟨rfl, rfl, fun _ _ _ => rfl⟩
    | some strengths =>
      obtain ⟨t1, t2, t3, t4⟩ := foldl_bumpAt strengths a₂ heap h₂
      refine ⟨?_, t2, fun n _ hn => t4 n hn⟩
      simp only [visitAt, visit, t1, t3 a₁ (fun e => hne e.symm)]
  | some skills =>
    obtain ⟨s1, s2, s3, s4⟩ := foldl_bumpAt skills a₁ heap h₁
    cases st with
    | none =>
      refine ⟨?_, s2, fun n hn _ => s4 n hn⟩
      simp only [visitAt, visit, s1, s3 a₂ hne]
    | some strengths =>
      obtain ⟨t1, t2, t3, t4⟩ :=
        foldl_bumpAt strengths a₂ (skills.foldl (bumpAt a₁) heap) (by rw [s2]; exact h₂)
      refine ⟨?_, t2.trans s2, fun n hn₁ hn₂ => (t4 n hn₂).trans (s4 n hn₁)⟩
      simp only [visitAt, visit, t1, t3 a₁ (fun e => hne e.symm), s1, s3 a₂ hne]

theorem foldl_visitAt (xs : List Profile) (a₁ a₂ : Nat) (hne : a₁ ≠ a₂) (heap : MapHeap)
    (h₁ : a₁ < heap.length) (h₂ : a₂ < heap.length) :
    ((xs.foldl (visitAt a₁ a₂) heap).read a₁, (xs.foldl (visitAt a₁ a₂) heap).read a₂)
      = xs.foldl visit (heap.read a₁, heap.read a₂) ∧
    (∀ n, n ≤ a₁ → n ≤ a₂ → (xs.foldl (visitAt a₁ a₂) heap).take n = heap.take n) := by
  induction xs generalizing heap with
  | nil => exact ⟨rfl, fun _ _ _ => rfl⟩
  | cons p rest ih =>
    obtain ⟨v1, v2, v3⟩ := visitAt_eq a₁ a₂ hne heap h₁ h₂ p
    obtain ⟨i1, i2⟩ := ih (visitAt a₁ a₂ heap p) (by rw [v2]; exact h₁) (by rw [v2]; exact h₂)
    simp only [List.foldl_cons]
    refine ⟨?_, fun n hn₁ hn₂ => by rw [i2 n hn₁ hn₂, v3 n hn₁ hn₂]⟩
    rw [i1, v1]

/-- A call returns the report of the typed embedding, whatever maps exist when it
starts, and leaves these maps as they were. -/
theorem analyzeTrendingSkillsCall_eq (heap : MapHeap) (xs : List Profile) :
    (analyzeTrendingSkillsCall heap xs).1 = analyzeTrendingSkills xs ∧
    (analyzeTrendingSkillsCall heap xs).2.take heap.length = heap := by
  have hlen₁ : heap.length < (heap ++ [[]] ++ [[]] : MapHeap).length := by simp
  have hlen₂ : (heap ++ [[]] : MapHeap).length < (heap ++ [[]] ++ [[]] : MapHeap).length := by
    simp
  have hne : heap.length ≠ (heap ++ [[]] : MapHeap).length := by simp
  obtain ⟨f1, f2⟩ := foldl_visitAt xs heap.length (heap ++ [[]] : MapHeap).length hne
    (heap ++ [[]] ++ [[]]) hlen₁ hlen₂
  have hread : ∀ i, i < 2 → (heap ++ [[]] ++ [[]] : MapHeap).read (heap.length + i) = [] := by
    intro i hi
    simp only [MapHeap.read, List.getD_eq_getElem?_getD, List.append_assoc]
    rw [List.getElem?_append_right (by omega)]
    interval_cases i <;> simp
  have hread₁ : (heap ++ [[]] ++ [[]] : MapHeap).read heap.length = [] := hread 0 (by omega)
  have hread₂ : (heap ++ [[]] ++ [[]] : MapHeap).read (heap ++ [[]] : MapHeap).length = [] := by
    have := hread 1 (by omega)
    simpa using this
  rw [hread₁, hread₂] at f1
  constructor
  · simp only [analyzeTrendingSkillsCall, newMap, f1]
    rfl
  · simp only [analyzeTrendingSkillsCall, newMap]
    rw [f2 heap.length (le_refl _) (by simp)]
    simp

/-- C9: `analyzeTrendingSkills` carries no state between calls. A call creates its two
maps anew, so that, whatever maps exist when it starts, on the empty list it returns
empty `topSkills` and `topStrengths`, `skillDiversity` 0, `strengthDiversity` 0 and a
profile total of 0, and on every list the report that depends on the list alone; hence a
second call with the same list, right after the first or after any other call, returns
the report of the first. The maps that existed before a call are left as they were. -/
theorem analysis_starts_empty_and_repeats (heap : MapHeap) (xs ys : List Profile) :
    (analyzeTrendingSkillsCall heap []).1 =
      { topSkills := []
        topStrengths := []
        totalPeople := 0
        analysis := some
          { mostPopularSkill := .str "N/A"
            mostPopularStrength := .str "N/A"
            skillDiversity := 0
            strengthDiversity := 0 }
        error := none } ∧
    (analyzeTrendingSkillsCall heap []).1.skillDiversity = 0 ∧
    (analyzeTrendingSkillsCall heap []).1.strengthDiversity = 0 ∧
    (analyzeTrendingSkillsCall (analyzeTrendingSkillsCall heap xs).2 xs).1
      = (analyzeTrendingSkillsCall heap xs).1 ∧
    (analyzeTrendingSkillsCall (analyzeTrendingSkillsCall heap ys).2 xs).1
      = (analyzeTrendingSkillsCall heap xs).1 ∧
    (analyzeTrendingSkillsCall heap xs).2.take heap.length = heap := by
  have hempty := (analyzeTrendingSkillsCall_eq heap []).1
  refine ⟨?_, ?_, ?_, ?_, ?_, (analyzeTrendingSkillsCall_eq heap xs).2⟩
  · rw [hempty]
    rfl
  · rw [hempty]
    rfl
  · rw [hempty]
    rfl
  · rw [(analyzeTrendingSkillsCall_eq _ xs).1, (analyzeTrendingSkillsCall_eq heap xs).1]
  · rw [(analyzeTrendingSkillsCall_eq _ xs).1, (analyzeTrendingSkillsCall_eq heap xs).1]

/-! ## Properties of `searchEntities` -/

theorem jsTrimChars_eq_nil (cs : List Char) :
    jsTrimChars cs = [] ↔ ∀ c ∈ cs, isJsWhiteSpace c = true := by
  unfold jsTrimChars
  rw [List.reverse_eq_nil_iff, List.dropWhile_eq_nil_iff]
  constructor
  · intro h
    by_cases hd : cs.dropWhile isJsWhiteSpace = []
    · exact List.dropWhile_eq_nil_iff.mp hd
    · exfalso
      have hhead := List.head_dropWhile_not isJsWhiteSpace cs hd
      have hmem : (cs.dropWhile isJsWhiteSpace).head hd
          ∈ (cs.dropWhile isJsWhiteSpace).reverse :=
        List.mem_reverse.mpr (List.head_mem hd)
      rw [h _ hmem] at hhead
      exact Bool.noConfusion hhead
  · intro h x hx
    rw [List.dropWhile_eq_nil_iff.mpr h] at hx
    simp at hx

theorem queryRejected_str (s : String) :
    queryRejected (.str s) = true ↔ ∀ c ∈ s.data, isJsWhiteSpace c = true := by
  have hlen : (jsTrim s).length = 0 ↔ jsTrimChars s.data = [] := by
    show (jsTrimChars s.data).length = 0 ↔ _
    exact List.length_eq_zero
  constructor
  · intro h
    simp only [queryRejected, JsValue.truthy, Bool.or_eq_true, Bool.not_eq_true',
      decide_eq_false_iff_not, decide_eq_true_eq, ne_eq, not_not] at h
    rcases h with h | h
    · subst h
      intro c hc
      simp at hc
    · exact (jsTrimChars_eq_nil s.data).mp (hlen.mp h)
  · intro h
    simp only [queryRejected, Bool.or_eq_true, decide_eq_true_eq]
    exact Or.inr (hlen.mpr ((jsTrimChars_eq_nil s.data).mpr h))

theorem queryRejected_of_not_str (q : JsValue) (h : ∀ s, q ≠ .str s) :
    queryRejected q = true := by
  cases q with
  | str s => exact absurd rfl (h s)
  | _ => simp [queryRejected]

/-- C10: when `query` is absent, is not a string, or consists only of whitespace,
`searchEntities` rejects and passes nothing to `axios.post`; when `query` is a string
with at least one non-whitespace character the check of line 21 lets it pass and one
request, carrying the trimmed query, is passed to `axios.post`. -/
theorem searchEntities_checks_query (post : RequestBody → Except Thrown ResponseData)
    (parse : String → Option RawItem) (searchParams : SearchParams) :
    ((searchParams.query = .undefined ∨ (∀ s, searchParams.query ≠ .str s) ∨
        (∃ s, searchParams.query = .str s ∧ ∀ c ∈ s.data, isJsWhiteSpace c = true)) →
      (searchEntities post parse searchParams).result
          = .error "Request error: Search query is required" ∧
        (searchEntities post parse searchParams).sent = []) ∧
    (∀ s, searchParams.query = .str s → (∃ c ∈ s.data, isJsWhiteSpace c = false) →
      queryRejected searchParams.query = false ∧
        ∃ body, (searchEntities post parse searchParams).sent = [body] ∧
          body.query = jsTrim s) := by
  constructor
  · intro h
    have hrej : queryRejected searchParams.query = true := by
      rcases h with h | h | ⟨s, hs, hws⟩
      · rw [h]
        rfl
      · exact queryRejected_of_not_str _ h
      · rw [hs]
        exact (queryRejected_str s).mpr hws
    simp [searchEntities, hrej, searchCatch]
  · intro s hs ⟨c, hc, hnot⟩
    have hrej : queryRejected searchParams.query = false := by
      rw [hs]
      cases hq : queryRejected (.str s) with
      | false => rfl
      | true =>
        have := (queryRejected_str s).mp hq c hc
        rw [this] at hnot
        exact Bool.noConfusion hnot
    refine ⟨hrej, ?_⟩
    rw [hs] at hrej
    simp only [searchEntities, hrej, hs, queryText]
    cases post _ <;> exact ⟨_, rfl, rfl⟩

/-- C10, at the queries tab-and-space (rejected) and " a b" with a trailing newline
(sent as "a b"). -/
theorem searchEntities_checks_query_witness :
    ((searchEntities (fun _ => .ok (.array [])) (fun _ => none)
        ⟨.str " \t", none, none⟩).result
        = .error "Request error: Search query is required" ∧
      (searchEntities (fun _ => .ok (.array [])) (fun _ => none)
        ⟨.str " \t", none, none⟩).sent = []) ∧
    (queryRejected (.str " a b\n") = false ∧
      ∃ body, (searchEntities (fun _ => .ok (.array [])) (fun _ => none)
          ⟨.str " a b\n", none, none⟩).sent = [body] ∧
        body.query = jsTrim " a b\n") :=
  ⟨(searchEntities_checks_query (fun _ => .ok (.array [])) (fun _ => none)
      ⟨.str " \t", none, none⟩).1 (Or.inr (Or.inr ⟨" \t", rfl, by decide⟩)),
   (searchEntities_checks_query (fun _ => .ok (.array [])) (fun _ => none)
      ⟨.str " a b\n", none, none⟩).2 " a b\n" rfl ⟨'a', by decide, by decide⟩⟩

theorem peopleResults_eq (results : List RawItem) :
    peopleResults results = (peopleOf results).map toPersonResult := by
  induction results with
  | nil => rfl
  | cons item rest ih =>
    simp only [peopleResults, peopleOf] at ih ⊢
    cases item with
    | falsy => simpa [isPerson] using ih
    | other => simpa [isPerson] using ih
    | object o =>
      by_cases hu : o.username.truthy = true
      · by_cases ho : o.organizationId.truthy = true
        · simpa [isPerson, hu, ho] using ih
        · have hnull : o.username ≠ .null := by
            intro h
            rw [h] at hu
            exact Bool.noConfusion hu
          simp only [Bool.not_eq_true] at ho
          simpa [isPerson, hu, ho, hnull] using ih
      · simp only [Bool.not_eq_true] at hu
        simpa [isPerson, hu] using ih

theorem mem_peopleOf (results : List RawItem) (o : RawObject) (h : o ∈ peopleOf results) :
    .object o ∈ results ∧ o.username.truthy = true ∧ o.organizationId.truthy = false := by
  simp only [peopleOf, List.mem_filterMap] at h
  obtain ⟨item, hmem, hitem⟩ := h
  cases item with
  | falsy => simp at hitem
  | other => simp at hitem
  | object o' =>
    simp only at hitem
    split_ifs at hitem with hc
    cases hitem
    exact ⟨hmem, hc.1, hc.2⟩

/-- What a successful run of `searchEntities` resolves with. -/
theorem searchEntities_ok (post : RequestBody → Except Thrown ResponseData)
    (parse : String → Option RawItem) (searchParams : SearchParams) (r : SearchResult)
    (h : (searchEntities post parse searchParams).result = .ok r) :
    queryRejected searchParams.query = false ∧
    ∃ body data, (searchEntities post parse searchParams).sent = [body] ∧
      post body = .ok data ∧
      r = { success := true
            data := peopleResults (parseResults parse data)
            total := (peopleResults (parseResults parse data)).length
            query := jsTrim (queryText searchParams.query)
            limit := searchParams.limit.getD 20
            offset := searchParams.offset.getD 0 } := by
  cases hrej : queryRejected searchParams.query with
  | true => simp [searchEntities, hrej] at h
  | false =>
    refine ⟨rfl, ?_⟩
    simp only [searchEntities, hrej, Bool.false_eq_true, ↓reduceIte] at h ⊢
    split at h
    · simp at h
    · rename_i data hpost
      simp only [Except.ok.injEq] at h
      exact ⟨_, data, rfl, hpost, h.symm⟩

/-- C11: the data of a successful search is exactly the sequence of raw results that
are objects with a truthy (for a string: non-empty) `username` and a falsy
`organizationId`, mapped one by one in their order; every element has
`person.username = person.publicId`, truthy, and `total` is the length of `data`. -/
theorem searchEntities_returns_only_people
    (post : RequestBody → Except Thrown ResponseData) (parse : String → Option RawItem)
    (searchParams : SearchParams) (r : SearchResult)
    (h : (searchEntities post parse searchParams).result = .ok r) :
    (∃ body data, (searchEntities post parse searchParams).sent = [body] ∧
      post body = .ok data ∧
      r.data = (peopleOf (parseResults parse data)).map toPersonResult) ∧
    (∀ p ∈ r.data, p.person.username = p.person.publicId ∧
      p.person.username.truthy = true ∧ p.person.username ≠ .str "") ∧
    r.total = r.data.length := by
  obtain ⟨_, body, data, hsent, hpost, hr⟩ := searchEntities_ok post parse searchParams r h
  subst hr
  refine ⟨⟨body, data, hsent, hpost, peopleResults_eq _⟩, ?_, rfl⟩
  intro p hp
  simp only [peopleResults_eq, List.mem_map] at hp
  obtain ⟨o, ho, rfl⟩ := hp
  have htruthy := (mem_peopleOf _ o ho).2.1
  refine ⟨rfl, htruthy, ?_⟩
  intro hempty
  simp only [toPersonResult] at hempty
  rw [hempty] at htruthy
  simp [JsValue.truthy] at htruthy

/-- C11, at a response with two people, one organization and one `null`. -/
theorem searchEntities_returns_only_people_witness :
    (searchEntities (fun _ => .ok sampleResponse) (fun _ => none)
        ⟨.str "dev", none, none⟩).result
      = .ok ⟨true, (peopleOf (parseResults (fun _ => none) sampleResponse)).map
          toPersonResult, 2, "dev", 20, 0⟩ ∧
    (⟨true, (peopleOf (parseResults (fun _ => none) sampleResponse)).map toPersonResult,
        2, "dev", 20, 0⟩ : SearchResult).total
      = (⟨true, (peopleOf (parseResults (fun _ => none) sampleResponse)).map
          toPersonResult, 2, "dev", 20, 0⟩ : SearchResult).data.length :=
  ⟨rfl,
    (searchEntities_returns_only_people (fun _ => .ok sampleResponse) (fun _ => none)
      ⟨.str "dev", none, none⟩ _ rfl).2.2⟩

/-- C12: for a query that passes the check, the one request sent carries
`limit = min(limit, 50)` when `limit > 0` (with 20 for an absent limit) and no `limit`
when `limit` is 0 or negative, so a limit that is sent never exceeds 50; it carries
`offset` only when `offset > 0`, and then unchanged. -/
theorem searchEntities_request_limit (post : RequestBody → Except Thrown ResponseData)
    (parse : String → Option RawItem) (searchParams : SearchParams)
    (h : queryRejected searchParams.query = false) :
    ∃ body, (searchEntities post parse searchParams).sent = [body] ∧
      body.limit = (if 0 < searchParams.limit.getD 20
        then some (min (searchParams.limit.getD 20) 50) else none) ∧
      (∀ l, body.limit = some l → l ≤ 50) ∧
      body.offset = (if 0 < searchParams.offset.getD 0
        then some (searchParams.offset.getD 0) else none) := by
  have hl : ∀ n : Int, (n ≠ 0 ∧ n > 0) ↔ 0 < n := fun n =>
    ⟨fun hn => hn.2, fun hn => ⟨by omega, hn⟩⟩
  refine ⟨{ query := jsTrim (queryText searchParams.query)
            limit := if 0 < searchParams.limit.getD 20
              then some (min (searchParams.limit.getD 20) 50) else none
            offset := if 0 < searchParams.offset.getD 0
              then some (searchParams.offset.getD 0) else none }, ?_, rfl, ?_, rfl⟩
  · have hoff : ∀ n : Int, 0 < n → max n 0 = n := fun n hn => max_eq_left (by omega)
    simp only [searchEntities, h, Bool.false_eq_true, ↓reduceIte, hl]
    by_cases ho : 0 < searchParams.offset.getD 0
    · simp only [ho, ↓reduceIte, hoff _ ho]
      cases post _ <;> rfl
    · simp only [ho, ↓reduceIte]
      cases post _ <;> rfl
  · intro l hlim
    simp only at hlim
    split_ifs at hlim
    cases hlim
    exact min_le_right _ _

/-- C12, at the limits 100 (sent as 50), absent (sent as 20) and -3 (not sent). -/
theorem searchEntities_request_limit_witness :
    queryRejected (.str "dev") = false ∧
    (searchEntities (fun _ => .ok (.array [])) (fun _ => none)
        ⟨.str "dev", some 100, some 40⟩).sent = [⟨"dev", some 50, some 40⟩] ∧
    (searchEntities (fun _ => .ok (.array [])) (fun _ => none)
        ⟨.str "dev", none, none⟩).sent = [⟨"dev", some 20, none⟩] ∧
    (searchEntities (fun _ => .ok (.array [])) (fun _ => none)
        ⟨.str "dev", some (-3), some (-1)⟩).sent = [⟨"dev", none, none⟩] ∧
    ∃ body, (searchEntities (fun _ => .ok (.array [])) (fun _ => none)
        ⟨.str "dev", some 100, some 40⟩).sent = [body] ∧ ∀ l, body.limit = some l → l ≤ 50 :=
  ⟨by decide, by decide, by decide, by decide,
    (searchEntities_request_limit (fun _ => .ok (.array [])) (fun _ => none)
      ⟨.str "dev", some 100, some 40⟩ (by decide)).imp (fun _ hb => ⟨hb.1, hb.2.2.1⟩)⟩

/-! ## Properties of `getUserGenome` -/

/-- C13: when `username` is absent, empty or not a string, `getUserGenome` rejects and
passes nothing to `axios.get`; for a non-empty string whose request succeeds it
resolves with `{success: true, data: <response body>, username}`. -/
theorem getUserGenome_checks_username {β : Type} (get : String → Except Thrown β)
    (username : JsValue) :
    ((username = .undefined ∨ username = .str "" ∨ (∀ s, username ≠ .str s)) →
      (getUserGenome get username).result
          = .error "Request error: Username is required and must be a string" ∧
        (getUserGenome get username).requested = []) ∧
    (∀ s body, username = .str s → s ≠ "" → get s = .ok body →
      (getUserGenome get username).result
          = .ok { success := true, data := body, username := s } ∧
        (getUserGenome get username).requested = [s]) := by
  constructor
  · intro h
    have hrej : usernameRejected username = true := by
      rcases h with h | h | h
      · rw [h]; rfl
      · rw [h]; rfl
      · cases username with
        | str s => exact absurd rfl (h s)
        | _ => simp [usernameRejected]
    simp [getUserGenome, hrej, genomeCatch]
  · intro s body hs hne hget
    subst hs
    have hrej : usernameRejected (.str s) = false := by
      simp [usernameRejected, JsValue.truthy, hne]
    simp [getUserGenome, hrej, queryText, hget]

/-- C13, at the usernames `""` (rejected) and "ana" (resolved with the body 5). -/
theorem getUserGenome_checks_username_witness :
    ((getUserGenome (fun _ => (.ok 5 : Except Thrown Nat)) (.str "")).result
        = .error "Request error: Username is required and must be a string" ∧
      (getUserGenome (fun _ => (.ok 5 : Except Thrown Nat)) (.str "")).requested = []) ∧
    ((getUserGenome (fun _ => (.ok 5 : Except Thrown Nat)) (.str "ana")).result
        = .ok { success := true, data := 5, username := "ana" } ∧
      (getUserGenome (fun _ => (.ok 5 : Except Thrown Nat)) (.str "ana")).requested
        = ["ana"]) :=
  ⟨(getUserGenome_checks_username (fun _ => (.ok 5 : Except Thrown Nat)) (.str "")).1
      (Or.inr (Or.inl rfl)),
   (getUserGenome_checks_username (fun _ => (.ok 5 : Except Thrown Nat)) (.str "ana")).2
      "ana" 5 rfl (by decide) rfl⟩

/-! ## Properties of `RecommendationCard` -/

/-- C14: whatever the length of `reasons`, the card shows at most 2 rows, and their
texts are the first two entries of `reasons` in their order. -/
theorem reasonRows_first_two (reasons : List String) :
    (reasonRows reasons).length ≤ 2 ∧
    (reasonRows reasons).length = min 2 reasons.length ∧
    (reasonRows reasons).map ReasonRow.text = reasons.take 2 := by
  refine ⟨?_, ?_, ?_⟩
  · simp [reasonRows, List.length_take]
  · simp [reasonRows, List.length_take]
  · have h : (fun p : Nat × String => ({ key := p.1, text := p.2 } : ReasonRow).text)
        = Prod.snd := rfl
    simp only [reasonRows, List.map_map, Function.comp_def, h, List.enum_map_snd]

/-! ## Search results fed to the trend analysis -/

theorem allSkillKeys_of_empty (ps : List PersonResult) (h : ∀ p ∈ ps, p.skills = []) :
    allSkillKeys (ps.map PersonResult.toProfile) = [] := by
  induction ps with
  | nil => rfl
  | cons p ps ih =>
    have hp := h p (List.mem_cons_self _ _)
    have ih' := ih (fun q hq => h q (List.mem_cons_of_mem _ hq))
    simp only [allSkillKeys] at ih' ⊢
    simp [PersonResult.toProfile, skillKeys, hp, ih']

theorem allStrengthKeys_of_empty (ps : List PersonResult)
    (h : ∀ p ∈ ps, p.strengths = []) :
    allStrengthKeys (ps.map PersonResult.toProfile) = [] := by
  induction ps with
  | nil => rfl
  | cons p ps ih =>
    have hp := h p (List.mem_cons_self _ _)
    have ih' := ih (fun q hq => h q (List.mem_cons_of_mem _ hq))
    simp only [allStrengthKeys] at ih' ⊢
    simp [PersonResult.toProfile, strengthKeys, hp, ih']

/-- C19: every element of the data of a successful search has empty `skills` and
`strengths`, so the trend analysis of that data has empty `topSkills` and
`topStrengths`, `skillDiversity` 0, `strengthDiversity` 0, 'N/A' as most popular skill
and strength, and `totalPeople` equal to the `total` of the search. -/
theorem trend_of_search_is_empty (post : RequestBody → Except Thrown ResponseData)
    (parse : String → Option RawItem) (searchParams : SearchParams) (r : SearchResult)
    (h : (searchEntities post parse searchParams).result = .ok r) :
    (∀ p ∈ r.data, p.skills = [] ∧ p.strengths = []) ∧
    analyzeTrendingSkills (r.data.map PersonResult.toProfile) =
      { topSkills := []
        topStrengths := []
        totalPeople := r.total
        analysis := some
          { mostPopularSkill := .str "N/A"
            mostPopularStrength := .str "N/A"
            skillDiversity := 0
            strengthDiversity := 0 }
        error := none } := by
  obtain ⟨_, body, data, _, _, hr⟩ := searchEntities_ok post parse searchParams r h
  have hempty : ∀ p ∈ r.data, p.skills = [] ∧ p.strengths = [] := by
    subst hr
    intro p hp
    simp only [peopleResults_eq, List.mem_map] at hp
    obtain ⟨o, _, rfl⟩ := hp
    exact ⟨rfl, rfl⟩
  have htotal : r.total = r.data.length := by
    subst hr
    rfl
  refine ⟨hempty, ?_⟩
  have hs := skillsMap_eq (r.data.map PersonResult.toProfile)
  have ht := strengthsMap_eq (r.data.map PersonResult.toProfile)
  rw [allSkillKeys_of_empty _ (fun p hp => (hempty p hp).1)] at hs
  rw [allStrengthKeys_of_empty _ (fun p hp => (hempty p hp).2)] at ht
  simp only [skillsMap, strengthsMap] at hs ht
  simp only [analyzeTrendingSkills, hs, ht, htotal, List.length_map]
  rfl

/-- C19, at a response with two people, one organization and one `null`. -/
theorem trend_of_search_is_empty_witness :
    (searchEntities (fun _ => .ok sampleResponse) (fun _ => none)
        ⟨.str "dev", none, none⟩).result
      = .ok ⟨true, peopleResults (parseResults (fun _ => none) sampleResponse), 2, "dev",
          20, 0⟩ ∧
    analyzeTrendingSkills
        ((peopleResults (parseResults (fun _ => none) sampleResponse)).map
          PersonResult.toProfile) =
      { topSkills := []
        topStrengths := []
        totalPeople := 2
        analysis := some
          { mostPopularSkill := .str "N/A"
            mostPopularStrength := .str "N/A"
            skillDiversity := 0
            strengthDiversity := 0 }
        error := none } :=
  ⟨rfl,
    (trend_of_search_is_empty (fun _ => .ok sampleResponse) (fun _ => none)
      ⟨.str "dev", none, none⟩
      ⟨true, peopleResults (parseResults (fun _ => none) sampleResponse), 2, "dev", 20, 0⟩
      rfl).2⟩

/-! ## Names and counts of the top lists -/

theorem topTen_names_nodup (ks : List SkillEntry) :
    ((topTen (countKeys [] ks)).map TrendEntry.name).Nodup := by
  have hnd : (countKeys [] ks).keys.Nodup := countKeys_keys_nodup ks [] (by simp [JsMap.keys])
  have hperm : (((countKeys [] ks).insertionSort byCountDesc).map Prod.fst).Perm
      (countKeys [] ks).keys :=
    (List.perm_insertionSort byCountDesc _).map Prod.fst
  have hsub : List.Sublist
      ((((countKeys [] ks).insertionSort byCountDesc).take 10).map Prod.fst)
      (((countKeys [] ks).insertionSort byCountDesc).map Prod.fst) :=
    (List.take_sublist _ _).map Prod.fst
  have hnames : (topTen (countKeys [] ks)).map TrendEntry.name
      = (((countKeys [] ks).insertionSort byCountDesc).take 10).map Prod.fst := by
    simp [topTen, List.map_map, Function.comp_def]
  rw [hnames]
  exact (hperm.nodup_iff.mpr hnd).sublist hsub

theorem topTen_sum_le (ks : List SkillEntry) :
    ((topTen (countKeys [] ks)).map TrendEntry.count).sum ≤ ks.length := by
  have hcounts : (topTen (countKeys [] ks)).map TrendEntry.count
      = ((topTen (countKeys [] ks)).map TrendEntry.name).map (fun k => ks.count k) := by
    rw [List.map_map]
    apply List.map_congr_left
    intro e he
    exact topTen_count ks e he
  have hsubset : (topTen (countKeys [] ks)).map TrendEntry.name ⊆ ks.dedup := by
    intro k hk
    rw [List.mem_map] at hk
    obtain ⟨e, he, rfl⟩ := hk
    have hmem := mem_topTen _ e he
    have hkey : e.name ∈ (countKeys [] ks).keys := by
      simp only [JsMap.keys, List.mem_map]
      exact ⟨_, hmem, rfl⟩
    have := (mem_countKeys_keys ks [] e.name).mp hkey
    simpa [JsMap.keys] using this
  obtain ⟨l, hperm, hsub⟩ := (topTen_names_nodup ks).subperm hsubset
  rw [hcounts, ← (hperm.map _).sum_eq, ← List.sum_map_count_dedup_eq_length ks]
  exact (hsub.map _).sum_le_sum (fun _ _ => Nat.zero_le _)

theorem length_allSkillKeys (xs : List Profile) :
    (allSkillKeys xs).length = (xs.map (fun p => (p.skills.getD []).length)).sum := by
  induction xs with
  | nil => rfl
  | cons p xs ih =>
    simp only [allSkillKeys] at ih ⊢
    simp [skillKeys, ih]

theorem mem_allSkillKeys (xs : List Profile) (k : SkillEntry) (h : k ∈ allSkillKeys xs) :
    ∃ p ∈ xs, ∃ s ∈ p.skills.getD [], skillName s = k := by
  simp only [allSkillKeys, List.mem_flatMap, skillKeys, List.mem_map] at h
  exact h

/-- C20: the names in `topSkills` are pairwise distinct, each is the name of a skill
entry of some input profile, each count is at least 1 and is the number of skill entries
over all profiles with exactly that name (a profile that lists it twice contributes 2),
and the counts sum to at most the total number of skill entries. -/
theorem topSkills_names_and_counts (xs : List Profile) :
    ((analyzeTrendingSkills xs).topSkills.map TrendEntry.name).Nodup ∧
    (∀ e ∈ (analyzeTrendingSkills xs).topSkills,
      (∃ p ∈ xs, ∃ s ∈ p.skills.getD [], skillName s = e.name) ∧
      1 ≤ e.count ∧
      e.count = (allSkillKeys xs).count e.name) ∧
    ((analyzeTrendingSkills xs).topSkills.map TrendEntry.count).sum
      ≤ (xs.map (fun p => (p.skills.getD []).length)).sum ∧
    (analyzeTrendingSkills goTwice).topSkills = [⟨.str "Go", 2⟩] := by
  rw [topSkills_eq, ← length_allSkillKeys]
  refine ⟨topTen_names_nodup _, ?_, topTen_sum_le _, by decide⟩
  intro e he
  have hcount := topTen_count _ e he
  have hkey : e.name ∈ allSkillKeys xs := by
    have hmem := mem_topTen _ e he
    have hk : e.name ∈ (countKeys [] (allSkillKeys xs)).keys := by
      simp only [JsMap.keys, List.mem_map]
      exact ⟨_, hmem, rfl⟩
    simpa [JsMap.keys] using (mem_countKeys_keys _ [] e.name).mp hk
  refine ⟨mem_allSkillKeys xs e.name hkey, ?_, hcount⟩
  rw [hcount]
  exact List.count_pos_iff.mpr hkey

/-- C20, at one profile that lists "Go" twice. -/
theorem topSkills_names_and_counts_witness :
    (⟨.str "Go", 2⟩ : TrendEntry) ∈ (analyzeTrendingSkills goTwice).topSkills ∧
    1 ≤ (⟨.str "Go", 2⟩ : TrendEntry).count ∧
    (⟨.str "Go", 2⟩ : TrendEntry).count = (allSkillKeys goTwice).count (.str "Go") :=
  ⟨by decide,
    ((topSkills_names_and_counts goTwice).2.1 ⟨.str "Go", 2⟩ (by decide)).2.1,
    ((topSkills_names_and_counts goTwice).2.1 ⟨.str "Go", 2⟩ (by decide)).2.2⟩

/-! ## The Normalizer of the specification -/

instance : IsTotal (String × ℚ) normBefore :=
  ⟨fun a b => by
    unfold normBefore
    rcases lt_trichotomy a.2 b.2 with h | h | h
    · exact Or.inr (Or.inl h)
    · rcases le_total (matchKey a.1) (matchKey b.1) with hk | hk
      · exact Or.inl (Or.inr ⟨h, hk⟩)
      · exact Or.inr (Or.inr ⟨h.symm, hk⟩)
    · exact Or.inl (Or.inl h)⟩

instance : IsTrans (String × ℚ) normBefore :=
  ⟨fun a b c hab hbc => by
    unfold normBefore at *
    rcases hab with hab | ⟨hab, kab⟩
    · rcases hbc with hbc | ⟨hbc, _⟩
      · exact Or.inl (lt_trans hbc hab)
      · exact Or.inl (hbc ▸ hab)
    · rcases hbc with hbc | ⟨hbc, kbc⟩
      · exact Or.inl (hab ▸ hbc)
      · exact Or.inr ⟨hab.trans hbc, le_trans kab kbc⟩⟩

theorem clampWeight_bounds (w : ℚ) : 0 ≤ clampWeight w ∧ clampWeight w ≤ 1 := by
  unfold clampWeight
  exact ⟨le_max_left _ _, max_le (by norm_num) (min_le_left _ _)⟩

theorem clampWeight_of_bounds (w : ℚ) (h0 : 0 ≤ w) (h1 : w ≤ 1) : clampWeight w = w := by
  unfold clampWeight
  rw [min_eq_right h1, max_eq_right h0]

theorem mergeEntry_keys (acc : List (String × ℚ)) (n : String) (w : ℚ) :
    (mergeEntry acc n w).map (fun p => matchKey p.1) =
      if matchKey n ∈ acc.map (fun p => matchKey p.1) then acc.map (fun p => matchKey p.1)
      else acc.map (fun p => matchKey p.1) ++ [matchKey n] := by
  induction acc with
  | nil => simp [mergeEntry]
  | cons a rest ih =>
    obtain ⟨n', w'⟩ := a
    by_cases h : matchKey n' = matchKey n
    · simp [mergeEntry, h]
    · have hne : ¬ matchKey n = matchKey n' := fun e => h e.symm
      by_cases hm : matchKey n ∈ rest.map (fun p => matchKey p.1)
      · simp only [mergeEntry, h, if_false, List.map_cons, ih, hm, if_true, List.mem_cons,
          or_true]
      · simp only [mergeEntry, h, if_false, List.map_cons, ih, hm, List.mem_cons, hne,
          or_self, List.cons_append]

theorem mergeEntry_of_new (acc : List (String × ℚ)) (n : String) (w : ℚ)
    (h : matchKey n ∉ acc.map (fun p => matchKey p.1)) :
    mergeEntry acc n w = acc ++ [(n, w)] := by
  induction acc with
  | nil => rfl
  | cons a rest ih =>
    obtain ⟨n', w'⟩ := a
    simp only [List.map_cons, List.mem_cons, not_or] at h
    have hne : ¬ matchKey n' = matchKey n := fun e => h.1 e.symm
    simp only [mergeEntry, hne, if_false, List.cons_append, ih h.2]

theorem mergeEntry_members (acc : List (String × ℚ)) (n : String) (w : ℚ)
    (hacc : ∀ p ∈ acc, matchKey p.1 ≠ [] ∧ 0 ≤ p.2 ∧ p.2 ≤ 1)
    (hn : matchKey n ≠ []) (h0 : 0 ≤ w) (h1 : w ≤ 1) :
    ∀ p ∈ mergeEntry acc n w, matchKey p.1 ≠ [] ∧ 0 ≤ p.2 ∧ p.2 ≤ 1 := by
  induction acc with
  | nil =>
    intro p hp
    simp only [mergeEntry, List.mem_singleton] at hp
    subst hp
    exact ⟨hn, h0, h1⟩
  | cons a rest ih =>
    obtain ⟨n', w'⟩ := a
    have ha := hacc (n', w') (List.mem_cons_self _ _)
    have hrest : ∀ p ∈ rest, matchKey p.1 ≠ [] ∧ 0 ≤ p.2 ∧ p.2 ≤ 1 :=
      fun p hp => hacc p (List.mem_cons_of_mem _ hp)
    intro p hp
    by_cases h : matchKey n' = matchKey n
    · simp only [mergeEntry, h, if_true, List.mem_cons] at hp
      rcases hp with hp | hp
      · subst hp
        exact ⟨ha.1, le_max_of_le_left ha.2.1, max_le ha.2.2 h1⟩
      · exact hrest p hp
    · simp only [mergeEntry, h, if_false, List.mem_cons] at hp
      rcases hp with hp | hp
      · subst hp
        exact ha
      · exact ih hrest p hp

theorem mergeEntry_normal (acc : List (String × ℚ)) (n : String) (w : ℚ)
    (hacc : Normal acc) (hn : matchKey n ≠ []) (h0 : 0 ≤ w) (h1 : w ≤ 1) :
    Normal (mergeEntry acc n w) := by
  refine ⟨?_, mergeEntry_members acc n w hacc.2 hn h0 h1⟩
  rw [mergeEntry_keys]
  split_ifs with hm
  · exact hacc.1
  · exact List.Nodup.append hacc.1 (List.nodup_singleton _) (by simpa using hm)

theorem mergeAll_normal (entries : List SpecEntry) (acc : List (String × ℚ))
    (hacc : Normal acc) : Normal (mergeAll acc entries) := by
  induction entries generalizing acc with
  | nil => exact hacc
  | cons e rest ih =>
    simp only [mergeAll, List.foldl_cons] at ih ⊢
    apply ih
    split_ifs with hk
    · exact hacc
    · exact mergeEntry_normal acc e.name _ hacc hk (clampWeight_bounds _).1
        (clampWeight_bounds _).2

/-- Normalised entries, read as input again, are merged back unchanged. -/
theorem mergeAll_of_normal (l acc : List (String × ℚ)) (h : Normal (acc ++ l)) :
    mergeAll acc (l.map (fun p => ({ name := p.1, weight := some p.2 } : SpecEntry)))
      = acc ++ l := by
  induction l generalizing acc with
  | nil => simp [mergeAll]
  | cons p l ih =>
    have hp := h.2 p (List.mem_append_right _ (List.mem_cons_self _ _))
    have hnew : matchKey p.1 ∉ acc.map (fun q => matchKey q.1) := by
      have hnd := h.1
      rw [List.map_append, List.map_cons] at hnd
      intro hmem
      exact (List.nodup_append.mp hnd).2.2 hmem (List.mem_cons_self _ _)
    have hstep : mergeAll acc
        ((p :: l).map (fun p => ({ name := p.1, weight := some p.2 } : SpecEntry)))
        = mergeAll (acc ++ [p])
          (l.map (fun p => ({ name := p.1, weight := some p.2 } : SpecEntry))) := by
      simp only [mergeAll, List.map_cons, List.foldl_cons, hp.1, if_false, entryWeight,
        Option.getD_some, clampWeight_of_bounds p.2 hp.2.1 hp.2.2,
        mergeEntry_of_new acc p.1 p.2 hnew]
    rw [hstep, ih (acc ++ [p]) (by simpa [List.append_assoc] using h)]
    simp [List.append_assoc]

theorem normal_sorted (entries : List SpecEntry) :
    Normal ((mergeAll [] entries).insertionSort normBefore) := by
  have hM : Normal (mergeAll [] entries) :=
    mergeAll_normal entries [] ⟨by simp, by simp⟩
  have hperm := List.perm_insertionSort normBefore (mergeAll [] entries)
  refine ⟨((hperm.map _).nodup_iff).mpr hM.1, ?_⟩
  intro p hp
  exact hM.2 p (hperm.mem_iff.mp hp)

/-- C17: the Normalizer is idempotent, `normalize(normalize(x)) = normalize(x)`, and
its output has no two entries with the same normalized key. -/
theorem normalize_idempotent (x : List SpecEntry) :
    normalize (normalize x) = normalize x ∧
    ((normalize x).map (fun e => matchKey e.name)).Nodup := by
  constructor
  · have hnormal := normal_sorted x
    have hmerge := mergeAll_of_normal ((mergeAll [] x).insertionSort normBefore) []
      (by simpa using hnormal)
    have hsorted : ((mergeAll [] x).insertionSort normBefore).Sorted normBefore :=
      List.sorted_insertionSort normBefore _
    show ((mergeAll [] (normalize x)).insertionSort normBefore).map _ = normalize x
    unfold normalize
    rw [hmerge, List.nil_append, hsorted.insertionSort_eq]
  · have h := (normal_sorted x).1
    simpa [normalize, List.map_map, Function.comp_def] using h

/-! ## The SimilarityScorer and the ComparisonEngine of the specification -/

theorem unionKeys_perm (a b : WeightedSet) : (unionKeys a b).Perm (unionKeys b a) :=
  List.Perm.dedup List.perm_append_comm

theorem sharedWeight_comm (a b : WeightedSet) (k : List Char) :
    sharedWeight a b k = sharedWeight b a k := by
  unfold sharedWeight
  cases weightIn a k <;> cases weightIn b k <;> simp [min_comm]

theorem unionWeight_comm (a b : WeightedSet) (k : List Char) :
    unionWeight a b k = unionWeight b a k := by
  unfold unionWeight
  exact max_comm _ _

theorem numerator_comm (a b : WeightedSet) : numerator a b = numerator b a := by
  unfold numerator
  rw [funext (sharedWeight_comm a b)]
  exact ((unionKeys_perm a b).map _).sum_eq

theorem denominator_comm (a b : WeightedSet) : denominator a b = denominator b a := by
  unfold denominator
  rw [funext (unionWeight_comm a b)]
  exact ((unionKeys_perm a b).map _).sum_eq

theorem identicalSets_comm (a b : WeightedSet) : identicalSets a b ↔ identicalSets b a := by
  unfold identicalSets
  constructor
  · intro h k hk
    exact (h k ((unionKeys_perm a b).mem_iff.mpr hk)).symm
  · intro h k hk
    exact (h k ((unionKeys_perm a b).mem_iff.mp hk)).symm

theorem scoreSets_comm (a b : WeightedSet) : scoreSets a b = scoreSets b a := by
  have hnil : unionKeys a b = [] ↔ unionKeys b a = [] :=
    ⟨fun h => List.Perm.eq_nil (h ▸ (unionKeys_perm a b).symm),
     fun h => List.Perm.eq_nil (h ▸ unionKeys_perm a b)⟩
  unfold scoreSets
  simp only [hnil, numerator_comm a b, denominator_comm a b, identicalSets_comm a b]

theorem durationSimilarity_comm (x y : ℤ) :
    durationSimilarity x y = durationSimilarity y x := by
  unfold durationSimilarity
  rw [abs_sub_comm, max_comm (x : ℚ) (y : ℚ)]

theorem scoreExperience_comm (months : SpecExperience → ℤ)
    (expA expB : List SpecExperience) :
    scoreExperience months expA expB = scoreExperience months expB expA := by
  unfold scoreExperience
  rw [scoreSets_comm, durationSimilarity_comm]

/-- C15: for profiles A and B with distinct usernames, `compare(A,B)` and
`compare(B,A)` both succeed and have the same overallScore, skillsScore, strengthsScore
and experienceScore. -/
theorem compare_symmetric (policy : ScoreWeights) (months : SpecExperience → ℤ)
    (a b : SpecProfile) (h : a.username ≠ b.username) :
    ∃ ab ba, compare policy months (some a) (some b) = .ok ab ∧
      compare policy months (some b) (some a) = .ok ba ∧
      ab.similarity.overallScore = ba.similarity.overallScore ∧
      ab.similarity.skillsScore = ba.similarity.skillsScore ∧
      ab.similarity.strengthsScore = ba.similarity.strengthsScore ∧
      ab.similarity.experienceScore = ba.similarity.experienceScore := by
  have h' : b.username ≠ a.username := fun e => h e.symm
  refine ⟨_, _, if_neg h, if_neg h', ?_, ?_, ?_, ?_⟩
  · simp only [scoreSets_comm (weightedSet a.skills), scoreSets_comm (weightedSet a.strengths),
      scoreExperience_comm months a.experiences]
  · exact scoreSets_comm _ _
  · exact scoreSets_comm _ _
  · exact scoreExperience_comm _ _ _

/-- C15, at the two profiles of the first worked example of the specification. -/
theorem compare_symmetric_witness :
    exampleA.username ≠ exampleB.username ∧
    scoresOf (compare defaultWeights (fun _ => 12) (some exampleA) (some exampleB))
      = scoresOf (compare defaultWeights (fun _ => 12) (some exampleB) (some exampleA)) := by
  refine ⟨by decide, ?_⟩
  obtain ⟨ab, ba, hab, hba, h1, h2, h3, h4⟩ :=
    compare_symmetric defaultWeights (fun _ => 12) exampleA exampleB (by decide)
  rw [hab, hba]
  simp only [scoresOf, h1, h2, h3, h4]

theorem weightIn_mem (s : WeightedSet) (k : List Char) (w : ℚ) (h : weightIn s k = some w) :
    (k, w) ∈ s := by
  induction s with
  | nil => simp [weightIn] at h
  | cons p rest ih =>
    obtain ⟨k', w'⟩ := p
    by_cases hk : k' = k
    · simp only [weightIn, hk, if_true, Option.some.injEq] at h
      subst hk
      subst h
      exact List.mem_cons_self _ _
    · simp only [weightIn, hk, if_false] at h
      exact List.mem_cons_of_mem _ (ih h)

theorem sharedWeight_bounds (a b : WeightedSet) (ha : ∀ p ∈ a, 0 ≤ p.2)
    (hb : ∀ p ∈ b, 0 ≤ p.2) (k : List Char) :
    0 ≤ sharedWeight a b k ∧ sharedWeight a b k ≤ unionWeight a b k := by
  unfold sharedWeight unionWeight
  cases hx : weightIn a k with
  | none =>
    cases hy : weightIn b k with
    | none => simp
    | some y => simp
  | some x =>
    have hx0 := ha _ (weightIn_mem a k x hx)
    cases hy : weightIn b k with
    | none => simp
    | some y =>
      have hy0 := hb _ (weightIn_mem b k y hy)
      simp only [Option.getD_some]
      exact ⟨le_min hx0 hy0, le_trans (min_le_left _ _) (le_max_left _ _)⟩

/-- A set score is a number of `[0,1]`, for sets without negative weights. -/
theorem scoreSets_bounds (a b : WeightedSet) (ha : ∀ p ∈ a, 0 ≤ p.2)
    (hb : ∀ p ∈ b, 0 ≤ p.2) : ∃ s, scoreSets a b = some s ∧ 0 ≤ s ∧ s ≤ 1 := by
  have hnum0 : 0 ≤ numerator a b :=
    List.sum_nonneg (fun x hx => by
      rw [List.mem_map] at hx
      obtain ⟨k, _, rfl⟩ := hx
      exact (sharedWeight_bounds a b ha hb k).1)
  have hle : numerator a b ≤ denominator a b :=
    List.sum_le_sum (fun k _ => (sharedWeight_bounds a b ha hb k).2)
  unfold scoreSets
  split_ifs with h1 h2 h3
  · exact ⟨0, rfl, le_refl _, by norm_num⟩
  · exact ⟨1, rfl, by norm_num, le_refl _⟩
  · exact ⟨0, rfl, le_refl _, by norm_num⟩
  · have hpos : 0 < denominator a b :=
      lt_of_le_of_ne (le_trans hnum0 hle) (fun e => h2 e.symm)
    exact ⟨numerator a b / denominator a b, by simp only [quotient, h2, if_false],
      div_nonneg hnum0 (le_of_lt hpos), (div_le_one hpos).mpr hle⟩

theorem weightedSet_nonneg (entries : List SpecEntry) : ∀ p ∈ weightedSet entries, 0 ≤ p.2 := by
  intro p hp
  simp only [weightedSet, List.mem_map] at hp
  obtain ⟨e, _, rfl⟩ := hp
  exact (clampWeight_bounds _).1

theorem categorySet_nonneg (experiences : List SpecExperience) :
    ∀ p ∈ categorySet experiences, 0 ≤ p.2 := by
  intro p hp
  simp only [categorySet, List.mem_map] at hp
  obtain ⟨c, _, rfl⟩ := hp
  norm_num

theorem durationSimilarity_bounds (x y : ℤ) (hx : 0 ≤ x) (hy : 0 ≤ y) :
    0 ≤ durationSimilarity x y ∧ durationSimilarity x y ≤ 1 := by
  have hx' : (0 : ℚ) ≤ x := by exact_mod_cast hx
  have hy' : (0 : ℚ) ≤ y := by exact_mod_cast hy
  have hpos : (0 : ℚ) < max (max (x : ℚ) y) 1 := lt_of_lt_of_le one_pos (le_max_right _ _)
  have habs : |(x : ℚ) - y| ≤ max (max (x : ℚ) y) 1 := by
    refine le_trans ?_ (le_max_left _ _)
    rw [abs_le]
    constructor
    · have := le_max_right (x : ℚ) y
      linarith
    · have := le_max_left (x : ℚ) y
      linarith
  have hratio0 : 0 ≤ |(x : ℚ) - y| / max (max (x : ℚ) y) 1 :=
    div_nonneg (abs_nonneg _) (le_of_lt hpos)
  have hratio1 : |(x : ℚ) - y| / max (max (x : ℚ) y) 1 ≤ 1 := (div_le_one hpos).mpr habs
  unfold durationSimilarity
  constructor <;> linarith

theorem totalMonths_nonneg (months : SpecExperience → ℕ) (experiences : List SpecExperience) :
    0 ≤ totalMonths (fun e => (months e : ℤ)) experiences := by
  unfold totalMonths
  apply List.sum_nonneg
  intro x hx
  rw [List.mem_map] at hx
  obtain ⟨e, _, rfl⟩ := hx
  exact Int.natCast_nonneg _

theorem scoreExperience_bounds (months : SpecExperience → ℕ)
    (expA expB : List SpecExperience) :
    ∃ s, scoreExperience (fun e => (months e : ℤ)) expA expB = some s ∧ 0 ≤ s ∧ s ≤ 1 := by
  obtain ⟨c, hc, hc0, hc1⟩ := scoreSets_bounds (categorySet expA) (categorySet expB)
    (categorySet_nonneg expA) (categorySet_nonneg expB)
  obtain ⟨hd0, hd1⟩ := durationSimilarity_bounds _ _ (totalMonths_nonneg months expA)
    (totalMonths_nonneg months expB)
  refine ⟨1 / 2 * durationSimilarity (totalMonths (fun e => (months e : ℤ)) expA)
      (totalMonths (fun e => (months e : ℤ)) expB) + 1 / 2 * c,
    by simp only [scoreExperience, hc, Option.map_some'], ?_, ?_⟩ <;> linarith

/-- C16: every score of a comparison, skills, strengths, experience and overall, is a
number (never not-a-number) in `[0,1]`, for durations in months that are natural numbers
and overall weights that are not negative and sum to at most 1, as 0.4, 0.3 and 0.3 do;
the set score of two empty sets is 0. -/
theorem compare_scores_in_unit_interval (policy : ScoreWeights)
    (months : SpecExperience → ℕ) (a b : SpecProfile)
    (hpolicy : 0 ≤ policy.skills ∧ 0 ≤ policy.strengths ∧ 0 ≤ policy.experience ∧
      policy.skills + policy.strengths + policy.experience ≤ 1)
    (h : a.username ≠ b.username) :
    (∃ r, compare policy (fun e => (months e : ℤ)) (some a) (some b) = .ok r ∧
      (∃ s, r.similarity.overallScore = some s ∧ 0 ≤ s ∧ s ≤ 1) ∧
      (∃ s, r.similarity.skillsScore = some s ∧ 0 ≤ s ∧ s ≤ 1) ∧
      (∃ s, r.similarity.strengthsScore = some s ∧ 0 ≤ s ∧ s ≤ 1) ∧
      (∃ s, r.similarity.experienceScore = some s ∧ 0 ≤ s ∧ s ≤ 1) ∧
      (a.skills = [] → b.skills = [] → r.similarity.skillsScore = some 0) ∧
      (a.strengths = [] → b.strengths = [] → r.similarity.strengthsScore = some 0)) ∧
    scoreSets [] [] = some 0 ∧
    0 ≤ defaultWeights.skills ∧ 0 ≤ defaultWeights.strengths ∧
    0 ≤ defaultWeights.experience ∧
    defaultWeights.skills + defaultWeights.strengths + defaultWeights.experience ≤ 1 := by
  obtain ⟨s, hs, hs0, hs1⟩ := scoreSets_bounds (weightedSet a.skills) (weightedSet b.skills)
    (weightedSet_nonneg _) (weightedSet_nonneg _)
  obtain ⟨t, ht, ht0, ht1⟩ := scoreSets_bounds (weightedSet a.strengths)
    (weightedSet b.strengths) (weightedSet_nonneg _) (weightedSet_nonneg _)
  obtain ⟨e, he, he0, he1⟩ := scoreExperience_bounds months a.experiences b.experiences
  obtain ⟨p1, p2, p3, p4⟩ := hpolicy
  refine ⟨⟨_, if_neg h, ?_, ⟨s, hs, hs0, hs1⟩, ⟨t, ht, ht0, ht1⟩, ⟨e, he, he0, he1⟩, ?_, ?_⟩,
    rfl, ?_⟩
  · refine ⟨policy.skills * s + policy.strengths * t + policy.experience * e,
      by simp only [hs, ht, he, overallOf], ?_, ?_⟩
    · have h1 := mul_nonneg p1 hs0
      have h2 := mul_nonneg p2 ht0
      have h3 := mul_nonneg p3 he0
      linarith
    · have h1 := mul_le_mul_of_nonneg_left hs1 p1
      have h2 := mul_le_mul_of_nonneg_left ht1 p2
      have h3 := mul_le_mul_of_nonneg_left he1 p3
      linarith
  · intro ha hb
    show scoreSets (weightedSet a.skills) (weightedSet b.skills) = some 0
    rw [ha, hb]
    rfl
  · intro ha hb
    show scoreSets (weightedSet a.strengths) (weightedSet b.strengths) = some 0
    rw [ha, hb]
    rfl
  · simp only [defaultWeights]
    norm_num

/-- C16, at the two profiles of the first worked example of the specification, and at
a profile whose one skill has weight 0, compared with a profile without skills (disjoint
sets, score 0) and with its own set of skills (identical sets, score 1). -/
theorem compare_scores_in_unit_interval_witness :
    exampleA.username ≠ exampleB.username ∧
    scoreSets (weightedSet zeroWeightProfile.skills) (weightedSet zeroWeightProfile.skills)
      = some 1 ∧
    scoresOf (compare defaultWeights (fun _ => ((12 : ℕ) : ℤ)) (some exampleA) (some exampleB))
      = some (some (29 / 100), some (7 / 20), some 0, some (1 / 2)) ∧
    scoresOf (compare defaultWeights (fun _ => ((12 : ℕ) : ℤ)) (some zeroWeightProfile)
        (some emptyProfile))
      = some (some (3 / 20), some 0, some 0, some (1 / 2)) ∧
    ∃ r, compare defaultWeights (fun _ => ((12 : ℕ) : ℤ)) (some exampleA) (some exampleB)
        = .ok r ∧
      ∃ s, r.similarity.overallScore = some s ∧ 0 ≤ s ∧ s ≤ 1 :=
  ⟨by decide, by decide!, by decide!, by decide!,
    (compare_scores_in_unit_interval defaultWeights (fun _ => 12) exampleA exampleB
      (by decide!) (by decide)).1.imp (fun _ hr => ⟨hr.1, hr.2.1⟩)⟩

/-! ## The CandidateRecommender of the specification and the recommendations view -/

instance : IsTotal Scored rankBefore :=
  ⟨fun a b => by
    unfold rankBefore
    rcases lt_trichotomy (rankScore a) (rankScore b) with h | h | h
    · exact Or.inr (Or.inl h)
    · rcases le_total a.1.username.toList b.1.username.toList with hk | hk
      · exact Or.inl (Or.inr ⟨h, hk⟩)
      · exact Or.inr (Or.inr ⟨h.symm, hk⟩)
    · exact Or.inl (Or.inl h)⟩

instance : IsTrans Scored rankBefore :=
  ⟨fun a b c hab hbc => by
    unfold rankBefore at *
    rcases hab with hab | ⟨hab, kab⟩
    · rcases hbc with hbc | ⟨hbc, _⟩
      · exact Or.inl (lt_trans hbc hab)
      · exact Or.inl (hbc ▸ hab)
    · rcases hbc with hbc | ⟨hbc, kbc⟩
      · exact Or.inl (hab ▸ hbc)
      · exact Or.inr ⟨hab.trans hbc, le_trans kab kbc⟩⟩

/-- A set score is a number, whatever the weights. -/
theorem scoreSets_isSome (a b : WeightedSet) : ∃ s, scoreSets a b = some s := by
  unfold scoreSets
  split_ifs with h1 h2 h3
  · exact ⟨_, rfl⟩
  · exact ⟨_, rfl⟩
  · exact ⟨_, rfl⟩
  · exact ⟨numerator a b / denominator a b, by simp only [quotient, h2, if_false]⟩

/-- The overall score of a comparison that succeeds is a number. -/
theorem compare_overall_isSome (policy : ScoreWeights) (months : SpecExperience → ℤ)
    (a b : SpecProfile) (r : ComparisonResult)
    (h : compare policy months (some a) (some b) = .ok r) :
    ∃ s, r.similarity.overallScore = some s := by
  obtain ⟨s, hs⟩ := scoreSets_isSome (weightedSet a.skills) (weightedSet b.skills)
  obtain ⟨t, ht⟩ := scoreSets_isSome (weightedSet a.strengths) (weightedSet b.strengths)
  obtain ⟨c, hc⟩ := scoreSets_isSome (categorySet a.experiences) (categorySet b.experiences)
  simp only [compare] at h
  split_ifs at h
  cases h
  simp only [hs, ht, scoreExperience, hc, Option.map_some', overallOf]
  exact ⟨_, rfl⟩

/-- Step 5 scores every candidate whose username is not that of the target. -/
theorem scoreCandidate_of_ne (policy : ScoreWeights) (months : SpecExperience → ℤ)
    (target c : SpecProfile) (h : c.username ≠ target.username) :
    ∃ x, scoreCandidate policy months target c = some x := by
  have hne : ¬ target.username = c.username := fun e => h e.symm
  simp only [scoreCandidate, compare, hne, if_false]
  exact ⟨_, rfl⟩

theorem scoreCandidate_some (policy : ScoreWeights) (months : SpecExperience → ℤ)
    (target c : SpecProfile) (x : Scored)
    (h : scoreCandidate policy months target c = some x) :
    x.1 = c ∧ ∃ s, x.2.overallScore = some s := by
  unfold scoreCandidate at h
  split at h
  · rename_i r hr
    cases h
    exact ⟨rfl, compare_overall_isSome policy months target c r hr⟩
  · cases h

theorem mem_candidatePool (search : String → Option (List SpecProfile))
    (target : SpecProfile) (options : RecommendOptions) (queries : List String)
    (c : SpecProfile) (h : c ∈ candidatePool search target options queries) :
    c.username ≠ target.username ∧ c.username ∉ options.excludeUsernames := by
  simp only [candidatePool, List.mem_filter, decide_eq_true_eq] at h
  exact h.2

/-- Step 5 drops no candidate of the pool: there are as many scored candidates as
candidates. -/
theorem scored_length (policy : ScoreWeights) (months : SpecExperience → ℤ)
    (search : String → Option (List SpecProfile)) (target : SpecProfile)
    (options : RecommendOptions) (queries : List String) :
    ((candidatePool search target options queries).filterMap
      (scoreCandidate policy months target)).length
      = (candidatePool search target options queries).length := by
  have hall : ∀ c ∈ candidatePool search target options queries,
      c.username ≠ target.username :=
    fun c hc => (mem_candidatePool search target options queries c hc).1
  generalize candidatePool search target options queries = pool at hall
  induction pool with
  | nil => rfl
  | cons c rest ih =>
    obtain ⟨x, hx⟩ := scoreCandidate_of_ne policy months target c
      (hall c (List.mem_cons_self _ _))
    rw [List.filterMap_cons_some hx, List.length_cons, List.length_cons,
      ih (fun d hd => hall d (List.mem_cons_of_mem _ hd))]

/-- What a successful call of `recommend` returns. -/
theorem recommend_ok (policy : ScoreWeights) (months : SpecExperience → ℤ)
    (search : String → Option (List SpecProfile)) (explain : Similarity → List String)
    (target : SpecProfile) (options : RecommendOptions) (r : RecommendationSet)
    (h : recommend policy months search explain target options = .ok r) :
    r.recommendations =
      ((((candidatePool search target options (deriveQueries target)).filterMap
          (scoreCandidate policy months target)).filter
          (fun x => !belowMinimum options.minSimilarityScore x)).insertionSort
          rankBefore |>.take options.limit).map
        (fun x => { person := x.1, similarity := x.2, reasons := (explain x.2).take 2 }) := by
  unfold recommend at h
  simp only at h
  split_ifs at h
  cases h
  rfl

/-- C18, where the claim fails: with no person selected the recommendations view returns
the panel "No People Selected" and renders no card, whatever list it has received, here
the two recommendations of the sample run; and it renders no card while it is loading or
after an error. -/
theorem no_card_without_selected_person :
    sampleSet.recommendations.length = 2 ∧
    recommendationCards 0 false false (some sampleSet.recommendations) = [] ∧
    recommendationCards 1 true false (some sampleSet.recommendations) = [] ∧
    recommendationCards 1 false true (some sampleSet.recommendations) = [] :=
  ⟨rfl, rfl, rfl, rfl⟩

/-- C18, amended: the recommendations returned by `recommend` are at most `limit`, every
one has an overall score that is a number of at least `minSimilarityScore`, none has a
username that is excluded or that of the target, and they are sorted by overall score
descending, ties by username ascending; the recommendations view asks for limit 20 and
minimum score 0.1 and, when at least one person is selected, it is not loading and it
has no error, renders one card per recommendation it received, in order. -/
theorem recommend_contract (policy : ScoreWeights) (months : SpecExperience → ℤ)
    (search : String → Option (List SpecProfile)) (explain : Similarity → List String)
    (target : SpecProfile) (options : RecommendOptions) (r : RecommendationSet)
    (h : recommend policy months search explain target options = .ok r) :
    r.recommendations.length ≤ options.limit ∧
    (∀ x ∈ r.recommendations, ∃ s, x.similarity.overallScore = some s ∧
      options.minSimilarityScore ≤ s) ∧
    (∀ x ∈ r.recommendations, x.person.username ∉ options.excludeUsernames ∧
      x.person.username ≠ target.username) ∧
    r.recommendations.Pairwise (fun x y => ∃ sx sy,
      x.similarity.overallScore = some sx ∧ y.similarity.overallScore = some sy ∧
      (sy < sx ∨ (sx = sy ∧ x.person.username.toList ≤ y.person.username.toList))) ∧
    viewOptions.limit = 20 ∧ viewOptions.minSimilarityScore = 1 / 10 ∧
    (∀ selectedPeople : Nat, 0 < selectedPeople →
      (recommendationCards selectedPeople false false (some r.recommendations)).map
        (fun c => c.2.2) = r.recommendations) := by
  have hr := recommend_ok policy months search explain target options r h
  have hmem : ∀ x ∈ ((((candidatePool search target options (deriveQueries target)).filterMap
      (scoreCandidate policy months target)).filter
      (fun x => !belowMinimum options.minSimilarityScore x)).insertionSort
      rankBefore).take options.limit,
      ∃ s, x.2.overallScore = some s ∧ rankScore x = s ∧ options.minSimilarityScore ≤ s ∧
      x.1.username ≠ target.username ∧ x.1.username ∉ options.excludeUsernames := by
    intro x hx
    have hx' := (List.mem_insertionSort rankBefore).mp (List.mem_of_mem_take hx)
    simp only [List.mem_filter, List.mem_filterMap] at hx'
    obtain ⟨⟨c, hc, hsc⟩, hmin⟩ := hx'
    obtain ⟨hperson, s, hscore⟩ := scoreCandidate_some policy months target c x hsc
    have hpool := mem_candidatePool search target options _ c hc
    rw [hperson]
    refine ⟨s, hscore, by simp only [rankScore, hscore, Option.getD_some], ?_, hpool.1, hpool.2⟩
    simp only [belowMinimum, hscore, Bool.not_eq_true', decide_eq_false_iff_not, not_lt] at hmin
    exact hmin
  refine ⟨?_, ?_, ?_, ?_, rfl, rfl, ?_⟩
  · rw [hr, List.length_map, List.length_take]
    exact min_le_left _ _
  · intro x hx
    rw [hr, List.mem_map] at hx
    obtain ⟨y, hy, rfl⟩ := hx
    obtain ⟨s, hs, _, hmin, _⟩ := hmem y hy
    exact ⟨s, hs, hmin⟩
  · intro x hx
    rw [hr, List.mem_map] at hx
    obtain ⟨y, hy, rfl⟩ := hx
    obtain ⟨s, _, _, _, hne, hex⟩ := hmem y hy
    exact ⟨hex, hne⟩
  · rw [hr, List.pairwise_map]
    have hsorted : (((((candidatePool search target options (deriveQueries target)).filterMap
        (scoreCandidate policy months target)).filter
        (fun x => !belowMinimum options.minSimilarityScore x)).insertionSort
        rankBefore).take options.limit).Pairwise rankBefore :=
      (List.sorted_insertionSort rankBefore _).sublist (List.take_sublist _ _)
    refine (List.Pairwise.and_mem.mp hsorted).imp ?_
    intro x y hxy
    obtain ⟨sx, hsx, hkx, _⟩ := hmem x hxy.1
    obtain ⟨sy, hsy, hky, _⟩ := hmem y hxy.2.1
    have hrank := hxy.2.2
    unfold rankBefore at hrank
    rw [hkx, hky] at hrank
    exact ⟨sx, sy, hsx, hsy, hrank⟩
  · intro selectedPeople hsel
    have hsnd : (fun p : Nat × Recommendation => (p.2.person.username, p.1, p.2).2.2)
        = Prod.snd := rfl
    have h0 : ¬ selectedPeople = 0 := by omega
    simp only [recommendationCards, h0, if_false, displayedRecommendations, Bool.not_false,
      Bool.and_self, Option.isSome_some, if_true, Option.getD_some, List.map_map,
      Function.comp_def, hsnd, List.enum_map_snd]

/-- C18, at a target with skills Go and SQL whose query "Go" returns three profiles,
the target among them, and whose query "SQL" fails; one person is selected in the
view. -/
theorem recommend_contract_witness :
    recommend defaultWeights (fun _ => 12) sampleSearch sampleExplain exampleA viewOptions
      = .ok sampleSet ∧
    sampleSet.recommendations.length ≤ viewOptions.limit ∧
    (recommendationCards 1 false false (some sampleSet.recommendations)).map (fun c => c.2.2)
      = sampleSet.recommendations :=
  ⟨by decide!,
    (recommend_contract defaultWeights (fun _ => 12) sampleSearch sampleExplain exampleA
      viewOptions sampleSet (by decide!)).1,
    (recommend_contract defaultWeights (fun _ => 12) sampleSearch sampleExplain exampleA
      viewOptions sampleSet (by decide!)).2.2.2.2.2.2 1 (by decide)⟩

/-! ## `analyzeTrendingSkills` on arbitrary data: the `catch` branch -/

theorem bumpEntries_some (failure : TrendFailure) (entries : List SkillEntry) (m : JsMap) :
    bumpEntries failure m (entries.map some) = .ok (entries.foldl bump m) := by
  induction entries generalizing m with
  | nil => rfl
  | cons e rest ih => simp only [List.map_cons, bumpEntries, List.foldl_cons, ih]

theorem visitRaw_toRaw (acc : JsMap × JsMap) (p : Profile) :
    visitRaw acc p.toRaw = .ok (visit acc p) := by
  obtain ⟨sk, st⟩ := p
  cases sk <;> cases st <;>
    simp [visitRaw, Profile.toRaw, countEntries, bumpEntries_some, visit]

theorem visitAll_toRaw (xs : List Profile) (acc : JsMap × JsMap) :
    visitAll acc (xs.map Profile.toRaw) = .ok (xs.foldl visit acc) := by
  induction xs generalizing acc with
  | nil => rfl
  | cons p rest ih => simp only [List.map_cons, visitAll, visitRaw_toRaw, List.foldl_cons, ih]

/-- On a list of profiles the `try` block does not throw and returns the report of the
typed embedding. -/
theorem tryAnalyze_toRaw (xs : List Profile) :
    tryAnalyze (.list (xs.map Profile.toRaw)) = .ok (analyzeTrendingSkills xs) := by
  simp only [tryAnalyze, visitAll_toRaw, analyzeTrendingSkills, tally, List.length_map]

theorem bumpEntries_broken (failure : TrendFailure) (entries : List (Option SkillEntry))
    (h : entries.any Option.isNone = true) (m : JsMap) :
    bumpEntries failure m entries = .error failure := by
  induction entries generalizing m with
  | nil => simp at h
  | cons e rest ih =>
    cases e with
    | none => rfl
    | some skill =>
      simp only [List.any_cons, Option.isNone_some, Bool.false_or] at h
      simp only [bumpEntries, ih h]

theorem countEntries_broken (notList nullEntry : TrendFailure) (entries : RawEntries)
    (h : entries.broken = true) (m : JsMap) :
    ∃ e, countEntries notList nullEntry m entries = .error e := by
  cases entries with
  | falsy => simp [RawEntries.broken] at h
  | notList => exact ⟨_, rfl⟩
  | list l => exact ⟨_, bumpEntries_broken nullEntry l h m⟩

theorem visitRaw_broken (p : RawPerson) (h : p.broken = true) (acc : JsMap × JsMap) :
    ∃ e, visitRaw acc p = .error e := by
  cases p with
  | nullish => exact ⟨_, rfl⟩
  | value skills strengths =>
    simp only [RawPerson.broken, Bool.or_eq_true] at h
    simp only [visitRaw]
    cases hs : countEntries .forEachOfSkills .nameOfSkill acc.1 skills with
    | error e => exact ⟨e, rfl⟩
    | ok skillsMap =>
      rcases h with h | h
      · obtain ⟨e, he⟩ := countEntries_broken .forEachOfSkills .nameOfSkill skills h acc.1
        rw [he] at hs
        cases hs
      · obtain ⟨e, he⟩ :=
          countEntries_broken .forEachOfStrengths .nameOfStrength strengths h acc.2
        simp only [he]
        exact ⟨e, rfl⟩

theorem visitAll_broken (people : List RawPerson) (p : RawPerson) (hp : p ∈ people)
    (h : p.broken = true) (acc : JsMap × JsMap) :
    ∃ e, visitAll acc people = .error e := by
  induction people generalizing acc with
  | nil => simp at hp
  | cons q rest ih =>
    simp only [visitAll]
    cases hq : visitRaw acc q with
    | error e => exact ⟨e, rfl⟩
    | ok acc' =>
      rcases List.mem_cons.mp hp with hp | hp
      · subst hp
        obtain ⟨e, he⟩ := visitRaw_broken p h acc
        rw [he] at hq
        cases hq
      · exact ih hp acc'

theorem tryAnalyze_broken (people : List RawPerson) (p : RawPerson) (hp : p ∈ people)
    (h : p.broken = true) : ∃ e, tryAnalyze (.list people) = .error e := by
  obtain ⟨e, he⟩ := visitAll_broken people p hp h ([], [])
  exact ⟨e, by simp only [tryAnalyze, he]⟩

/-- C21: `analyzeTrendingSkills` returns a report for every data value: the report of
the `try` block, without error message, or, when a statement of the `try` block throws,
exactly `topSkills = []`, `topStrengths = []`, `totalPeople = 0`, `analysis = {}` and the
error message, whatever was counted before. The latter is the case for an argument that
is not a list and for a list with a broken element: `null`, or a value whose `skills` or
`strengths` is a truthy value that is not a list or holds a `null` entry. On a list of
profiles the report is that of the `try` block. -/
theorem analyzeTrendingSkills_never_throws (message : TrendFailure → String)
    (searchResults : RawResults) :
    ((∃ report, tryAnalyze searchResults = .ok report ∧ report.error = none ∧
        analyzeTrendingSkillsOfData message searchResults = report) ∨
      (∃ e, tryAnalyze searchResults = .error e ∧
        analyzeTrendingSkillsOfData message searchResults =
          { topSkills := [], topStrengths := [], totalPeople := 0, analysis := none
            error := some (message e) })) ∧
    analyzeTrendingSkillsOfData message .notList = failureReport (message .forEachOfResults) ∧
    (∀ people p, p ∈ people → p.broken = true →
      ∃ e, analyzeTrendingSkillsOfData message (.list people) = failureReport (message e)) ∧
    (∀ xs : List Profile,
      analyzeTrendingSkillsOfData message (.list (xs.map Profile.toRaw))
        = analyzeTrendingSkills xs) := by
  refine ⟨?_, rfl, ?_, ?_⟩
  · cases h : tryAnalyze searchResults with
    | ok report =>
      refine Or.inl ⟨report, rfl, ?_, by simp only [analyzeTrendingSkillsOfData, h]⟩
      cases searchResults with
      | notList => simp [tryAnalyze] at h
      | list people =>
        simp only [tryAnalyze] at h
        split at h
        · cases h
        · cases h
          rfl
    | error e =>
      exact Or.inr ⟨e, rfl, by simp only [analyzeTrendingSkillsOfData, h, failureReport]⟩
  · intro people p hp hbroken
    obtain ⟨e, he⟩ := tryAnalyze_broken people p hp hbroken
    exact ⟨e, by simp only [analyzeTrendingSkillsOfData, he]⟩
  · intro xs
    simp only [analyzeTrendingSkillsOfData, tryAnalyze_toRaw]

/-- C21, at a list whose first element has the skill "Go" and whose second element is
`null`, and at one whose second element has the number 5 as `skills`: the count of "Go"
is not reported. -/
theorem analyzeTrendingSkills_never_throws_witness :
    RawPerson.nullish ∈ [Profile.toRaw ⟨some [.str "Go"], none⟩, RawPerson.nullish] ∧
    RawPerson.nullish.broken = true ∧
    analyzeTrendingSkillsOfData sampleMessage
        (.list [Profile.toRaw ⟨some [.str "Go"], none⟩, .nullish])
      = failureReport "Cannot read properties of null (reading skills)" ∧
    analyzeTrendingSkillsOfData sampleMessage
        (.list [Profile.toRaw ⟨some [.str "Go"], none⟩, .value .notList .falsy])
      = failureReport "person.skills.forEach is not a function" ∧
    ∃ e, analyzeTrendingSkillsOfData sampleMessage
        (.list [Profile.toRaw ⟨some [.str "Go"], none⟩, .nullish])
      = failureReport (sampleMessage e) :=
  ⟨by decide, by decide, by decide, by decide,
    (analyzeTrendingSkills_never_throws sampleMessage .notList).2.2.1
      [Profile.toRaw ⟨some [.str "Go"], none⟩, .nullish] .nullish (by decide) (by decide)⟩

/-! ## Error messages of `searchEntities` and `getUserGenome` -/

theorem beginsWith_append (p rest : String) : beginsWith p (p ++ rest) := by
  simp [beginsWith]

theorem not_beginsWith_append (p q rest : String) (c d : Char) (cs ds : List Char)
    (hp : p.data = c :: cs) (hq : q.data = d :: ds) (h : c ≠ d) :
    ¬ beginsWith p (q ++ rest) := by
  simp only [beginsWith, String.data_append, hp, hq, List.cons_append,
    List.cons_prefix_cons, not_and]
  intro hcd
  exact absurd hcd h

theorem hasOneErrorPrefix_api (rest : String) : hasOneErrorPrefix ("API Error " ++ rest) :=
  Or.inl ⟨beginsWith_append _ _,
    not_beginsWith_append _ _ _ 'N' 'A' _ _ rfl rfl (by decide),
    not_beginsWith_append _ _ _ 'R' 'A' _ _ rfl rfl (by decide)⟩

theorem hasOneErrorPrefix_network (rest : String) :
    hasOneErrorPrefix ("Network error: " ++ rest) :=
  Or.inr (Or.inl ⟨not_beginsWith_append _ _ _ 'A' 'N' _ _ rfl rfl (by decide),
    beginsWith_append _ _,
    not_beginsWith_append _ _ _ 'R' 'N' _ _ rfl rfl (by decide)⟩)

theorem hasOneErrorPrefix_request (rest : String) :
    hasOneErrorPrefix ("Request error: " ++ rest) :=
  Or.inr (Or.inr ⟨not_beginsWith_append _ _ _ 'A' 'R' _ _ rfl rfl (by decide),
    not_beginsWith_append _ _ _ 'N' 'R' _ _ rfl rfl (by decide),
    beginsWith_append _ _⟩)

theorem searchCatch_prefix (e : Thrown) : hasOneErrorPrefix (searchCatch e) := by
  cases e with
  | withResponse status message =>
    simp only [searchCatch, String.append_assoc]
    exact hasOneErrorPrefix_api _
  | withRequest =>
    exact hasOneErrorPrefix_network
      "Unable to reach Torre API. Please check your internet connection."
  | plain message => exact hasOneErrorPrefix_request message

theorem genomeCatch_prefix (e : Thrown) : hasOneErrorPrefix (genomeCatch e) := by
  cases e with
  | withResponse status message =>
    simp only [genomeCatch, String.append_assoc]
    exact hasOneErrorPrefix_api _
  | withRequest =>
    exact hasOneErrorPrefix_network
      "Unable to reach Torre API. Please check your internet connection."
  | plain message => exact hasOneErrorPrefix_request message

theorem searchEntities_error (post : RequestBody → Except Thrown ResponseData)
    (parse : String → Option RawItem) (searchParams : SearchParams) (msg : String)
    (h : (searchEntities post parse searchParams).result = .error msg) :
    ∃ e, msg = searchCatch e := by
  cases hrej : queryRejected searchParams.query with
  | true =>
    simp only [searchEntities, hrej, ↓reduceIte] at h
    exact ⟨_, (Except.error.inj h).symm⟩
  | false =>
    simp only [searchEntities, hrej, Bool.false_eq_true, ↓reduceIte] at h
    split at h
    · exact ⟨_, (Except.error.inj h).symm⟩
    · cases h

theorem getUserGenome_error {β : Type} (get : String → Except Thrown β)
    (username : JsValue) (msg : String)
    (h : (getUserGenome get username).result = .error msg) :
    ∃ e, msg = genomeCatch e := by
  unfold getUserGenome at h
  split_ifs at h
  · exact ⟨_, (Except.error.inj h).symm⟩
  · split at h
    · exact ⟨_, (Except.error.inj h).symm⟩
    · cases h

/-- C22: every error with which `searchEntities` or `getUserGenome` fails has a message
that begins with exactly one of 'API Error ', 'Network error: ' and 'Request error: ';
an invalid query fails with 'Request error: Search query is required', which is not
'Search query is required', and an invalid username with
'Request error: Username is required and must be a string'. -/
theorem errors_begin_with_one_prefix :
    (∀ (post : RequestBody → Except Thrown ResponseData) (parse : String → Option RawItem)
        (searchParams : SearchParams) (msg : String),
      (searchEntities post parse searchParams).result = .error msg →
      hasOneErrorPrefix msg) ∧
    (∀ (β : Type) (get : String → Except Thrown β) (username : JsValue) (msg : String),
      (getUserGenome get username).result = .error msg → hasOneErrorPrefix msg) ∧
    (∀ (post : RequestBody → Except Thrown ResponseData) (parse : String → Option RawItem)
        (searchParams : SearchParams),
      queryRejected searchParams.query = true →
      (searchEntities post parse searchParams).result
        = .error "Request error: Search query is required") ∧
    "Request error: Search query is required" ≠ "Search query is required" ∧
    (∀ (β : Type) (get : String → Except Thrown β) (username : JsValue),
      usernameRejected username = true →
      (getUserGenome get username).result
        = .error "Request error: Username is required and must be a string") := by
  refine ⟨?_, ?_, ?_, by decide, ?_⟩
  · intro post parse searchParams msg h
    obtain ⟨e, rfl⟩ := searchEntities_error post parse searchParams msg h
    exact searchCatch_prefix e
  · intro β get username msg h
    obtain ⟨e, rfl⟩ := getUserGenome_error get username msg h
    exact genomeCatch_prefix e
  · intro post parse searchParams h
    simp [searchEntities, h, searchCatch]
  · intro β get username h
    simp [getUserGenome, h, genomeCatch]

/-- C22, at a response with status 404, at a request without response, and at an absent
query and username. -/
theorem errors_begin_with_one_prefix_witness :
    ((searchEntities (fun _ => .error (.withResponse 404 (some "Not found")))
        (fun _ => none) ⟨.str "dev", none, none⟩).result = .error "API Error 404: Not found" ∧
      hasOneErrorPrefix "API Error 404: Not found") ∧
    ((getUserGenome (fun _ => (.error .withRequest : Except Thrown Nat)) (.str "ana")).result
        = .error
          "Network error: Unable to reach Torre API. Please check your internet connection." ∧
      hasOneErrorPrefix
        "Network error: Unable to reach Torre API. Please check your internet connection.") ∧
    (queryRejected .undefined = true ∧
      (searchEntities (fun _ => .ok (.array [])) (fun _ => none)
        ⟨.undefined, none, none⟩).result
        = .error "Request error: Search query is required") ∧
    (usernameRejected .undefined = true ∧
      (getUserGenome (fun _ => (.ok 5 : Except Thrown Nat)) .undefined).result
        = .error "Request error: Username is required and must be a string") :=
  ⟨⟨by decide, errors_begin_with_one_prefix.1 _ (fun _ => none) ⟨.str "dev", none, none⟩ _
      (by decide :
        (searchEntities (fun _ => .error (.withResponse 404 (some "Not found")))
          (fun _ => none) ⟨.str "dev", none, none⟩).result
        = .error "API Error 404: Not found")⟩,
   ⟨rfl, errors_begin_with_one_prefix.2.1 Nat (fun _ => .error .withRequest)
      (.str "ana") _ rfl⟩,
   ⟨by decide, errors_begin_with_one_prefix.2.2.1 (fun _ => .ok (.array [])) (fun _ => none)
      ⟨.undefined, none, none⟩ (by decide)⟩,
   ⟨by decide, errors_begin_with_one_prefix.2.2.2.2 Nat (fun _ => .ok 5) .undefined
      (by decide)⟩⟩

/-! ## The fields of a successful search -/

/-- C24: the `limit` and `offset` of a successful result are the values the caller
passed (20 and 0 when absent), whatever was sent, and its `query` is the trimmed query,
the one that was sent; with limit 100 the request carries 50 and the result 100. -/
theorem searchEntities_reports_passed_values
    (post : RequestBody → Except Thrown ResponseData) (parse : String → Option RawItem)
    (searchParams : SearchParams) (r : SearchResult)
    (h : (searchEntities post parse searchParams).result = .ok r) :
    r.limit = searchParams.limit.getD 20 ∧
    r.offset = searchParams.offset.getD 0 ∧
    r.query = jsTrim (queryText searchParams.query) ∧
    (∃ body, (searchEntities post parse searchParams).sent = [body] ∧ body.query = r.query) ∧
    (searchEntities (fun _ => .ok (.array [])) (fun _ => none)
        ⟨.str " dev ", some 100, none⟩).sent = [⟨"dev", some 50, none⟩] ∧
    (searchEntities (fun _ => .ok (.array [])) (fun _ => none)
        ⟨.str " dev ", some 100, none⟩).result = .ok ⟨true, [], 0, "dev", 100, 0⟩ := by
  obtain ⟨hrej, body, data, hsent, _, hr⟩ := searchEntities_ok post parse searchParams r h
  subst hr
  refine ⟨rfl, rfl, rfl, ?_, by decide, by decide⟩
  refine ⟨body, hsent, ?_⟩
  simp only [searchEntities, hrej, Bool.false_eq_true, ↓reduceIte] at hsent
  split at hsent
  · simp only [List.cons.injEq, and_true] at hsent
    rw [← hsent]
  · simp only [List.cons.injEq, and_true] at hsent
    rw [← hsent]

/-- C24, at limit 100 and offset 7. -/
theorem searchEntities_reports_passed_values_witness :
    (searchEntities (fun _ => .ok (.array [])) (fun _ => none)
        ⟨.str " dev ", some 100, some 7⟩).result = .ok ⟨true, [], 0, "dev", 100, 7⟩ ∧
    (searchEntities (fun _ => .ok (.array [])) (fun _ => none)
        ⟨.str " dev ", some 100, some 7⟩).sent = [⟨"dev", some 50, some 7⟩] ∧
    (⟨true, [], 0, "dev", 100, 7⟩ : SearchResult).limit
      = (⟨.str " dev ", some 100, some 7⟩ : SearchParams).limit.getD 20 :=
  ⟨by decide, by decide,
    (searchEntities_reports_passed_values (fun _ => .ok (.array [])) (fun _ => none)
      ⟨.str " dev ", some 100, some 7⟩ ⟨true, [], 0, "dev", 100, 7⟩ (by decide)).1⟩

/-! ## Line-delimited response bodies -/

theorem parsed_lines_eq (parse : String → Option RawItem) (lines : List String) :
    (lines.map (fun line => (parse line).getD .falsy)).filter
        (fun item => decide (item ≠ .falsy))
      = lines.filterMap (truthyValue parse) := by
  induction lines with
  | nil => rfl
  | cons line rest ih =>
    simp only [List.map_cons, List.filter_cons, List.filterMap_cons, truthyValue]
    cases hp : parse line with
    | none => simpa using ih
    | some v =>
      by_cases hv : v = .falsy
      · simpa [hv] using ih
      · simpa [hv] using ih

theorem splitNewline_exists (cs : List Char) : ∃ l ls, splitNewline cs = l :: ls := by
  induction cs with
  | nil => exact ⟨[], [], rfl⟩
  | cons c cs ih =>
    obtain ⟨l, ls, h⟩ := ih
    by_cases hc : c = '\n'
    · exact ⟨[], splitNewline cs, by simp [splitNewline, hc]⟩
    · exact ⟨c :: l, ls, by simp [splitNewline, hc, h]⟩

theorem nonBlankCount_cons (l : List Char) (ls : List (List Char)) :
    nonBlankCount (l :: ls)
      = (if jsTrimChars l = [] then 0 else 1) + nonBlankCount ls := by
  unfold nonBlankCount
  by_cases h : jsTrimChars l = []
  · simp [List.filter_cons, h]
  · simp [List.filter_cons, h]
    omega

theorem blank_cons (c : Char) (l : List Char) (hc : isJsWhiteSpace c = true) :
    jsTrimChars (c :: l) = [] ↔ jsTrimChars l = [] := by
  rw [jsTrimChars_eq_nil, jsTrimChars_eq_nil]
  constructor
  · intro h x hx
    exact h x (List.mem_cons_of_mem _ hx)
  · intro h x hx
    rcases List.mem_cons.mp hx with hx | hx
    · rw [hx]
      exact hc
    · exact h x hx

/-- A whitespace character in front of a text does not change the number of its lines
that are not blank. -/
theorem nonBlankCount_cons_space (c : Char) (cs : List Char)
    (hc : isJsWhiteSpace c = true) :
    nonBlankCount (splitNewline (c :: cs)) = nonBlankCount (splitNewline cs) := by
  obtain ⟨l, ls, h⟩ := splitNewline_exists cs
  by_cases hn : c = '\n'
  · have hsplit : splitNewline (c :: cs) = [] :: splitNewline cs := by
      simp [splitNewline, hn]
    rw [hsplit, nonBlankCount_cons]
    have : jsTrimChars [] = [] := rfl
    simp [this]
  · have hsplit : splitNewline (c :: cs) = (c :: l) :: ls := by
      simp [splitNewline, hn, h]
    rw [hsplit, h, nonBlankCount_cons, nonBlankCount_cons]
    by_cases hl : jsTrimChars l = []
    · simp [hl, (blank_cons c l hc).mpr hl]
    · have : ¬ jsTrimChars (c :: l) = [] := fun e => hl ((blank_cons c l hc).mp e)
      simp [hl, this]

/-- A whitespace character behind a text leaves the first line blank or not as it was,
and the number of later lines that are not blank as it was. -/
theorem splitNewline_append_space (c : Char) (hc : isJsWhiteSpace c = true)
    (cs : List Char) :
    ∃ l ls l' ls', splitNewline cs = l :: ls ∧ splitNewline (cs ++ [c]) = l' :: ls' ∧
      (jsTrimChars l' = [] ↔ jsTrimChars l = []) ∧ nonBlankCount ls' = nonBlankCount ls := by
  induction cs with
  | nil =>
    by_cases hn : c = '\n'
    · refine ⟨[], [], [], [[]], rfl, by simp [splitNewline, hn], Iff.rfl, ?_⟩
      rfl
    · refine ⟨[], [], [c], [], rfl, by simp [splitNewline, hn], ?_, rfl⟩
      have hnil : jsTrimChars [] = [] := rfl
      rw [blank_cons c [] hc]
  | cons d cs ih =>
    obtain ⟨l, ls, l', ls', h, h', hblank, hcount⟩ := ih
    by_cases hd : d = '\n'
    · refine ⟨[], l :: ls, [], l' :: ls', by simp [splitNewline, hd, h],
        by simp [splitNewline, hd, h'], Iff.rfl, ?_⟩
      rw [nonBlankCount_cons, nonBlankCount_cons, hcount]
      by_cases hl : jsTrimChars l = []
      · simp [hl, hblank.mpr hl]
      · have : ¬ jsTrimChars l' = [] := fun e => hl (hblank.mp e)
        simp [hl, this]
    · refine ⟨d :: l, ls, d :: l', ls', by simp [splitNewline, hd, h],
        by simp [splitNewline, hd, h'], ?_, hcount⟩
      rw [jsTrimChars_eq_nil, jsTrimChars_eq_nil]
      rw [jsTrimChars_eq_nil, jsTrimChars_eq_nil] at hblank
      constructor
      · intro hall x hx
        rcases List.mem_cons.mp hx with hx | hx
        · rw [hx]
          exact hall d (List.mem_cons_self _ _)
        · exact hblank.mp (fun y hy => hall y (List.mem_cons_of_mem _ hy)) x hx
      · intro hall x hx
        rcases List.mem_cons.mp hx with hx | hx
        · rw [hx]
          exact hall d (List.mem_cons_self _ _)
        · exact hblank.mpr (fun y hy => hall y (List.mem_cons_of_mem _ hy)) x hx

theorem nonBlankCount_append_space (c : Char) (hc : isJsWhiteSpace c = true)
    (cs : List Char) :
    nonBlankCount (splitNewline (cs ++ [c])) = nonBlankCount (splitNewline cs) := by
  obtain ⟨l, ls, l', ls', h, h', hblank, hcount⟩ := splitNewline_append_space c hc cs
  rw [h, h', nonBlankCount_cons, nonBlankCount_cons, hcount]
  by_cases hl : jsTrimChars l = []
  · simp [hl, hblank.mpr hl]
  · have : ¬ jsTrimChars l' = [] := fun e => hl (hblank.mp e)
    simp [hl, this]

theorem nonBlankCount_append_spaces (suffix : List Char)
    (h : ∀ c ∈ suffix, isJsWhiteSpace c = true) (cs : List Char) :
    nonBlankCount (splitNewline (cs ++ suffix)) = nonBlankCount (splitNewline cs) := by
  induction suffix generalizing cs with
  | nil => simp
  | cons c rest ih =>
    have hstep : cs ++ c :: rest = (cs ++ [c]) ++ rest := by simp
    rw [hstep, ih (fun x hx => h x (List.mem_cons_of_mem _ hx)) (cs ++ [c]),
      nonBlankCount_append_space c (h c (List.mem_cons_self _ _)) cs]

theorem nonBlankCount_dropWhile (cs : List Char) :
    nonBlankCount (splitNewline (cs.dropWhile isJsWhiteSpace))
      = nonBlankCount (splitNewline cs) := by
  induction cs with
  | nil => rfl
  | cons c cs ih =>
    by_cases hc : isJsWhiteSpace c = true
    · rw [List.dropWhile_cons_of_pos hc, ih, nonBlankCount_cons_space c cs hc]
    · rw [List.dropWhile_cons_of_neg hc]

/-- Trimming a text does not change the number of its lines that are not blank. -/
theorem nonBlankCount_trim (cs : List Char) :
    nonBlankCount (splitNewline (jsTrimChars cs)) = nonBlankCount (splitNewline cs) := by
  have hsplit : cs.dropWhile isJsWhiteSpace
      = jsTrimChars cs ++ ((cs.dropWhile isJsWhiteSpace).reverse.takeWhile isJsWhiteSpace).reverse := by
    unfold jsTrimChars
    rw [← List.reverse_append, List.takeWhile_append_dropWhile, List.reverse_reverse]
  have hspaces : ∀ c ∈ ((cs.dropWhile isJsWhiteSpace).reverse.takeWhile isJsWhiteSpace).reverse,
      isJsWhiteSpace c = true := by
    intro c hc
    exact (List.mem_takeWhile_imp (List.mem_reverse.mp hc))
  rw [← nonBlankCount_dropWhile cs, hsplit, nonBlankCount_append_spaces _ hspaces]

theorem keptLines_length (s : String) :
    (keptLines s).length = nonBlankCount (splitNewline s.data) := by
  rw [← nonBlankCount_trim]
  unfold keptLines nonBlankCount
  rw [List.filter_map, List.length_map]
  congr 1
  apply List.filter_congr
  intro l _
  have : jsTrim (String.mk l) ≠ "" ↔ jsTrimChars l ≠ [] := by
    unfold jsTrim
    constructor
    · intro h e
      exact h (by rw [e])
    · intro h e
      exact h (congrArg String.data e)
  simp only [Function.comp_apply, decide_eq_decide]
  exact this

/-- C23 (as stated, refuted): in the body of two lines `0` and `{"username":"ana"}` both
lines parse, to the number 0 and to an object, yet the raw results hold the object only:
the value 0 of the first line is dropped. -/
theorem falsy_line_value_is_dropped :
    keptLines "0\n\x7b\"username\":\"ana\"\x7d" = ["0", "\x7b\"username\":\"ana\"\x7d"] ∧
    sampleParse "0" = some .falsy ∧
    ((keptLines "0\n\x7b\"username\":\"ana\"\x7d").filterMap sampleParse).length = 2 ∧
    (parseResults sampleParse (.text "0\n\x7b\"username\":\"ana\"\x7d")).length = 1 := by
  decide

/-- C23 (amended): for a response body that is a string, the raw results are the truthy
values of the lines that parse, in line order; blank lines are ignored, and a line that
fails to parse, or parses to a falsy value, is skipped without failing the search, so
that the number of raw results is at most the number of lines of the body that are not
blank. -/
theorem text_body_is_line_delimited (parse : String → Option RawItem) (s : String) :
    parseResults parse (.text s) = (keptLines s).filterMap (truthyValue parse) ∧
    (∀ line ∈ keptLines s, jsTrim line ≠ "") ∧
    (keptLines s).length = nonBlankCount (splitNewline s.data) ∧
    (parseResults parse (.text s)).length ≤ nonBlankCount (splitNewline s.data) ∧
    (∀ (post : RequestBody → Except Thrown ResponseData) (searchParams : SearchParams),
      queryRejected searchParams.query = false → (∀ body, post body = .ok (.text s)) →
      ∃ r, (searchEntities post parse searchParams).result = .ok r ∧
        r.data = peopleResults ((keptLines s).filterMap (truthyValue parse))) := by
  have hresults : parseResults parse (.text s) = (keptLines s).filterMap (truthyValue parse) :=
    parsed_lines_eq parse (keptLines s)
  refine ⟨hresults, ?_, keptLines_length s, ?_, ?_⟩
  · intro line hline
    simp only [keptLines, List.mem_filter, decide_eq_true_eq] at hline
    exact hline.2
  · rw [hresults, ← keptLines_length]
    exact List.length_filterMap_le _ _
  · intro post searchParams hrej hpost
    simp only [searchEntities, hrej, Bool.false_eq_true, ↓reduceIte, hpost]
    exact ⟨_, rfl, by rw [hresults]⟩

/-- C23 (amended), at a body of five lines: a blank one, the number 0, an object, one
that does not parse and an empty one. -/
theorem text_body_is_line_delimited_witness :
    queryRejected (.str "dev") = false ∧
    keptLines " \n0\n\x7b\"username\":\"ana\"\x7d\nnot json\n"
      = ["0", "\x7b\"username\":\"ana\"\x7d", "not json"] ∧
    (parseResults sampleParse
        (.text " \n0\n\x7b\"username\":\"ana\"\x7d\nnot json\n")).length = 1 ∧
    ∃ r, (searchEntities (fun _ => .ok (.text " \n0\n\x7b\"username\":\"ana\"\x7d\nnot json\n"))
          sampleParse ⟨.str "dev", none, none⟩).result = .ok r ∧
      r.data = peopleResults
        ((keptLines " \n0\n\x7b\"username\":\"ana\"\x7d\nnot json\n").filterMap
          (truthyValue sampleParse)) :=
  ⟨by decide, by decide, by decide,
    (text_body_is_line_delimited sampleParse
      " \n0\n\x7b\"username\":\"ana\"\x7d\nnot json\n").2.2.2.2
      (fun _ => .ok (.text " \n0\n\x7b\"username\":\"ana\"\x7d\nnot json\n"))
      ⟨.str "dev", none, none⟩ (by decide) (fun _ => rfl)⟩

end TorreXplor
